import Mathlib

/-!
# random_variable_analysis.c : a shallow embedding

The C program keeps its samples in global `double` arrays and computes sample statistics and a
histogram over them.  The arithmetic on `double`s is read in two ways.  In the first a
`double` is a number of an exact ordered field `α` (the rationals run, the reals carry the
statements) and no operation rounds.  In the second (the definitions named `..._double`) a
`double` is a rational number that IEEE 754 binary64 holds, and every operation ends with the
rounding `round_double`.  A C `int` is an `Int`, a global array is a map from indices
to values together with its declared size, and every operation that has no value in exact
arithmetic or in C (division by zero, the square root of a negative number, the logarithm of
a number that is not positive, an infinity, a conversion to `int` out of range, an array
access outside the declared size) ends the run with a `Fault`.  The functions of `math.h` and the constant
`RAND_MAX` of `stdlib.h` are parameters; `rand()` is a stream of results with a position.
-/

namespace RandomVariableAnalysis

/-- The constant `#define N_SAMPLES 10000`. -/
def N_SAMPLES : Nat := 10000

/-- The constant `#define BINS 50`. -/
def BINS : Nat := 50

/-- The ways a run of the C code can stop having a defined result.  The program contains no
check of its arguments, so no function below ever produces `rejected`: it stands for a call
refused by a precondition check before anything is computed. -/
inductive Fault where
  /-- a precondition check refused the call (never produced by this program) -/
  | rejected
  /-- a quotient was evaluated with divisor zero -/
  | divByZero
  /-- `sqrt` was applied to a negative number -/
  | sqrtOfNegative
  /-- `log` was applied to zero or to a negative number -/
  | logOfNonPositive
  /-- an operation on `double`s gave an infinity, which is no number -/
  | notFinite
  /-- a `double` was converted to `int` and its integral part is no `int` -/
  | intCastRange
  /-- an array element outside the declared size was accessed -/
  | outOfBounds
  deriving DecidableEq

/-- The global arrays of the program.  `bernoulli_samples`, `normal_samples` and
`combined_samples` have `N_SAMPLES` elements, `histogram` and `bin_centers` have `BINS`. -/
structure Globals (α : Type) where
  bernoulli_samples : Nat → α
  normal_samples : Nat → α
  combined_samples : Nat → α
  histogram : Nat → Int
  bin_centers : Nat → α

/-- The state behind `rand()`: the results it is going to return, in order, and the number of
calls made so far. -/
structure Rng where
  results : Nat → Int
  calls : Nat

/-- One call of `rand()`: the next result, and the advanced state. -/
def rand (r : Rng) : Int × Rng :=
  (r.results r.calls, { r with calls := r.calls + 1 })

/-- The loop `for (int i = lo; i < lo + cnt; i++) s = body i s;` for a body that cannot
fault. -/
def forLoop {σ : Type} (body : Nat → σ → σ) (lo : Nat) : Nat → σ → σ
  | 0, s => s
  | cnt + 1, s => body (lo + cnt) (forLoop body lo cnt s)

/-- The loop `for (int i = lo; i < lo + cnt; i++) s = body i s;` for a body that can fault:
the first fault ends the loop. -/
def forLoopM {σ : Type} (body : Nat → σ → Except Fault σ) (lo : Nat) :
    Nat → σ → Except Fault σ
  | 0, s => .ok s
  | cnt + 1, s =>
    match forLoopM body lo cnt s with
    | .ok s1 => body (lo + cnt) s1
    | .error e => .error e

section Field

variable {α : Type} [LinearOrderedField α]

/-- The quotient `a / b` of two `double`s; it has no exact value when `b` is zero. -/
def fdiv (a b : α) : Except Fault α :=
  if b = 0 then .error .divByZero else .ok (a / b)

/-- The call `sqrt(x)` of `math.h`, for a square root function `sqrt` on the non-negative
numbers. -/
def fsqrt (sqrt : α → α) (x : α) : Except Fault α :=
  if x < 0 then .error .sqrtOfNegative else .ok (sqrt x)

/-- The three results that `calculate_statistics` writes through its pointers. -/
structure Statistics (α : Type) where
  mean : α
  std : α
  var : α

/-- The function
`void calculate_statistics(double *data, int n, double *mean, double *std, double *var)`:
`data` is an array of at least `n` elements, and the three results are returned together.
The arithmetic is exact; `calculate_statistics_double` rounds every operation. -/
def calculate_statistics (sqrt : α → α) (data : Nat → α) (n : Int) :
    Except Fault (Statistics α) :=
  let sum := forLoop (fun i (sum : α) => sum + data i) 0 n.toNat 0
  match fdiv sum (n : α) with
  | .error e => .error e
  | .ok mean =>
    let sum_sq_diff :=
      forLoop (fun i (sum_sq_diff : α) =>
        let diff := data i - mean
        sum_sq_diff + diff * diff) 0 n.toNat 0
    match fdiv sum_sq_diff (n : α) with
    | .error e => .error e
    | .ok var =>
      match fsqrt sqrt var with
      | .error e => .error e
      | .ok std => .ok { mean := mean, std := std, var := var }

/-- The function `void combine_samples(int n)`. -/
def combine_samples (n : Int) (g : Globals α) : Except Fault (Globals α) :=
  forLoopM (fun i (g : Globals α) =>
    if i < N_SAMPLES then
      .ok { g with combined_samples :=
              Function.update g.combined_samples i (g.bernoulli_samples i + g.normal_samples i) }
    else .error .outOfBounds) 0 n.toNat g

/-- The function `void generate_bernoulli_samples(int n)`; `%` is the C remainder, which
truncates toward zero. -/
def generate_bernoulli_samples (n : Int) (s : Rng × Globals α) :
    Except Fault (Rng × Globals α) :=
  forLoopM (fun i (s : Rng × Globals α) =>
    let (r, rng) := rand s.1
    let bernoulli : Int := Int.tmod r 2
    if i < N_SAMPLES then
      .ok (rng, { s.2 with bernoulli_samples :=
                    Function.update s.2.bernoulli_samples i (((2 * bernoulli - 1 : Int) : α)) })
    else .error .outOfBounds) 0 n.toNat s

/-- The first loop of `create_histogram`: the least and the greatest of `data[0..n-1]`,
starting from `data[0]`. -/
def find_range (data : Nat → α) (n : Int) : α × α :=
  forLoop (fun i (mm : α × α) =>
    let min_val := if data i < mm.1 then data i else mm.1
    let max_val := if data i > mm.2 then data i else mm.2
    (min_val, max_val)) 1 (n - 1).toNat (data 0, data 0)

variable [FloorRing α]

/-- The conversion `(int)x` of a `double`: the integral part, rounded toward zero; it is
undefined when that is not an `int` (of 32 bits). -/
def double_to_int (x : α) : Except Fault Int :=
  let t : Int := if 0 ≤ x then ⌊x⌋ else ⌈x⌉
  if -2147483648 ≤ t ∧ t ≤ 2147483647 then .ok t else .error .intCastRange

/-- The index computed for one sample in the third loop of `create_histogram`:
`int bin_index = (int)((data[i] - min_val) / bin_width);`
`if (bin_index >= bins) bin_index = bins - 1;`
with the difference and the quotient exact; `bin_index_of_double` rounds them. -/
def bin_index_of (x min_val bin_width : α) (bins : Int) : Except Fault Int :=
  match fdiv (x - min_val) bin_width with
  | .error e => .error e
  | .ok q =>
    match double_to_int q with
    | .error e => .error e
    | .ok bin_index => .ok (if bin_index ≥ bins then bins - 1 else bin_index)

/-- The second loop of `create_histogram`: bin `i` gets its centre and the count zero. -/
def init_bins (min_val bin_width : α) (bins : Int) (g : Globals α) :
    Except Fault (Globals α) :=
  forLoopM (fun i (g : Globals α) =>
    if i < BINS then
      .ok { g with
              bin_centers := Function.update g.bin_centers i (min_val + ((i : α) + 1 / 2) * bin_width)
              histogram := Function.update g.histogram i 0 }
    else .error .outOfBounds) 0 bins.toNat g

/-- The third loop of `create_histogram`: every sample increments the count of its bin. -/
def fill_bins (data : Nat → α) (n : Int) (min_val bin_width : α) (bins : Int)
    (g : Globals α) : Except Fault (Globals α) :=
  forLoopM (fun i (g : Globals α) =>
    match bin_index_of (data i) min_val bin_width bins with
    | .error e => .error e
    | .ok bin_index =>
      if 0 ≤ bin_index ∧ bin_index < BINS then
        .ok { g with histogram :=
                Function.update g.histogram bin_index.toNat (g.histogram bin_index.toNat + 1) }
      else .error .outOfBounds) 0 n.toNat g

/-- The function `void create_histogram(double *data, int n, int bins)`; `data` is an array
of at least `n` elements (and one element when `n` is not positive) that is neither
`histogram` nor `bin_centers`.  The literal `0.5` is the exact number `1/2`.  The
arithmetic is exact; `create_histogram_double` rounds every operation. -/
def create_histogram (data : Nat → α) (n bins : Int) (g : Globals α) :
    Except Fault (Globals α) :=
  let (min_val, max_val) := find_range data n
  match fdiv (max_val - min_val) (bins : α) with
  | .error e => .error e
  | .ok bin_width =>
    match init_bins min_val bin_width bins g with
    | .error e => .error e
    | .ok g1 => fill_bins data n min_val bin_width bins g1

end Field

section Normal

variable {α : Type} [LinearOrderedField α]

/-- The constant `#define PI 3.14159265358979323846`, the decimal number as written. -/
def PI : α := 314159265358979323846 / 100000000000000000000

/-- The functions of `math.h` that `box_muller` calls, each given on the numbers where it has
a value. -/
structure Libm (α : Type) where
  sqrt : α → α
  log : α → α
  cos : α → α
  sin : α → α

/-- The static variables of `box_muller`: `static double z0, z1; static int generate = 0;`. -/
structure BoxMuller (α : Type) where
  z0 : α
  z1 : α
  generate : Int

/-- The call `log(x)` of `math.h`; the logarithm has no value at zero or below. -/
def flog (log : α → α) (x : α) : Except Fault α :=
  if x ≤ 0 then .error .logOfNonPositive else .ok (log x)

/-- The expression `(double)rand() / RAND_MAX` for a result `r` of `rand()`.  The constant
`RAND_MAX` comes from the platform's `stdlib.h` and is a parameter here. -/
def unit_draw (RAND_MAX : Int) (r : Int) : Except Fault α :=
  fdiv (r : α) (RAND_MAX : α)

/-- The expression `sqrt(-2 * log(u1))` of `box_muller`. -/
def radius (m : Libm α) (u1 : α) : Except Fault α :=
  match flog m.log u1 with
  | .error e => .error e
  | .ok l => fsqrt m.sqrt (-2 * l)

/-- The function `double box_muller(void)`: the returned value together with the state of
`rand()` and the static variables after the call. -/
def box_muller (m : Libm α) (RAND_MAX : Int) (s : Rng × BoxMuller α) :
    Except Fault (α × Rng × BoxMuller α) :=
  if s.2.generate = 0 then
    let (r1, rng1) := rand s.1
    match unit_draw RAND_MAX r1 with
    | .error e => .error e
    | .ok (u1 : α) =>
      let (r2, rng2) := rand rng1
      match unit_draw RAND_MAX r2 with
      | .error e => .error e
      | .ok (u2 : α) =>
        match radius m u1 with
        | .error e => .error e
        | .ok ra =>
          let z0 := ra * m.cos (2 * PI * u2)
          match radius m u1 with
          | .error e => .error e
          | .ok rb =>
            let z1 := rb * m.sin (2 * PI * u2)
            .ok (z0, rng2, { z0 := z0, z1 := z1, generate := 1 })
  else
    .ok (s.2.z1, s.1, { z0 := s.2.z0, z1 := s.2.z1, generate := 0 })

/-- The function `void generate_normal_samples(int n)`. -/
def generate_normal_samples (m : Libm α) (RAND_MAX : Int) (n : Int)
    (s : Rng × BoxMuller α × Globals α) : Except Fault (Rng × BoxMuller α × Globals α) :=
  forLoopM (fun i (s : Rng × BoxMuller α × Globals α) =>
    match box_muller m RAND_MAX (s.1, s.2.1) with
    | .error e => .error e
    | .ok (z, rng, bm) =>
      if i < N_SAMPLES then
        .ok (rng, bm, { s.2.2 with normal_samples :=
                          Function.update s.2.2.normal_samples i z })
      else .error .outOfBounds) 0 n.toNat s

end Normal

section Double

/-! The same functions on C `double`s: IEEE 754 binary64, every operation rounded once to
the nearest `double`, ties to even, with neither wider intermediate results nor fused
multiply-add. -/

/-- The integer nearest to the fraction `a / b` of two natural numbers (`b` positive), the
even one of the two when `a / b` lies half way between them. -/
def round_half_even (a b : Nat) : Nat :=
  let f := a / b
  let r := a % b
  if 2 * r < b then f else if b < 2 * r then f + 1 else if f % 2 = 0 then f else f + 1

/-- The number of binary digits of `n`, counted with at most `fuel` halvings. -/
def bit_length_aux : Nat → Nat → Nat
  | 0, _ => 0
  | fuel + 1, n => if n = 0 then 0 else bit_length_aux fuel (n / 2) + 1

/-- The number of binary digits of `n`: `2^(bit_length n - 1) ≤ n < 2^(bit_length n)` for a
positive `n`. -/
def bit_length (n : Nat) : Nat := bit_length_aux n n

/-- The binary exponent of the fraction `a / b` of two positive natural numbers: the integer
`e` with `2^e ≤ a / b < 2^(e+1)`. -/
def binade (a b : Nat) : Int :=
  let e0 : Int := (bit_length a : Int) - (bit_length b : Int)
  if (if 0 ≤ e0 then b * 2 ^ e0.toNat ≤ a else b ≤ a * 2 ^ (-e0).toNat) then e0 else e0 - 1

/-- The rounding that ends every arithmetic operation on a C `double` (IEEE 754 binary64,
round to nearest, ties to even): the exact result `q` is replaced by the nearest multiple of
`2^p`, where `p` is 52 below the binary exponent of `q` and at least `-1074`, so that a
small enough `q` becomes zero.  When the rounded magnitude reaches `2^1024` the result is an
infinity, which no number stands for. -/
def round_double (q : ℚ) : Except Fault ℚ :=
  if q = 0 then .ok 0
  else
    let a : Nat := q.num.natAbs
    let b : Nat := q.den
    let p : Int := max (binade a b - 52) (-1074)
    let n : Nat :=
      if 0 ≤ p then round_half_even a (b * 2 ^ p.toNat)
      else round_half_even (a * 2 ^ (-p).toNat) b
    let v : ℚ :=
      if 0 ≤ p then ((n * 2 ^ p.toNat : Nat) : ℚ) else (n : ℚ) / ((2 ^ (-p).toNat : Nat) : ℚ)
    if ((2 ^ 1024 : Nat) : ℚ) ≤ v then .error .notFinite
    else .ok (if q < 0 then -v else v)

/-- The sum `a + b` of two `double`s. -/
def dadd (a b : ℚ) : Except Fault ℚ := round_double (a + b)

/-- The difference `a - b` of two `double`s. -/
def dsub (a b : ℚ) : Except Fault ℚ := round_double (a - b)

/-- The product `a * b` of two `double`s. -/
def dmul (a b : ℚ) : Except Fault ℚ := round_double (a * b)

/-- The quotient `a / b` of two `double`s; with `b` zero it is an infinity or a NaN. -/
def ddiv (a b : ℚ) : Except Fault ℚ :=
  if b = 0 then .error .divByZero else round_double (a / b)

/-- The function `calculate_statistics` with every operation rounded to a `double`; `sqrt` is
the square root of `math.h` on the `double`s. -/
def calculate_statistics_double (sqrt : ℚ → ℚ) (data : Nat → ℚ) (n : Int) :
    Except Fault (Statistics ℚ) :=
  match forLoopM (fun i (sum : ℚ) => dadd sum (data i)) 0 n.toNat 0 with
  | .error e => .error e
  | .ok sum =>
    match ddiv sum (n : ℚ) with
    | .error e => .error e
    | .ok mean =>
      match forLoopM (fun i (sum_sq_diff : ℚ) =>
          match dsub (data i) mean with
          | .error e => .error e
          | .ok diff =>
            match dmul diff diff with
            | .error e => .error e
            | .ok sq => dadd sum_sq_diff sq) 0 n.toNat 0 with
      | .error e => .error e
      | .ok sum_sq_diff =>
        match ddiv sum_sq_diff (n : ℚ) with
        | .error e => .error e
        | .ok var =>
          match fsqrt sqrt var with
          | .error e => .error e
          | .ok std => .ok { mean := mean, std := std, var := var }

/-- The index computed for one sample in the third loop of `create_histogram`, with the
difference and the quotient rounded to `double`s. -/
def bin_index_of_double (x min_val bin_width : ℚ) (bins : Int) : Except Fault Int :=
  match dsub x min_val with
  | .error e => .error e
  | .ok d =>
    match ddiv d bin_width with
    | .error e => .error e
    | .ok q =>
      match double_to_int q with
      | .error e => .error e
      | .ok bin_index => .ok (if bin_index ≥ bins then bins - 1 else bin_index)

/-- The centre `min_val + (i + 0.5) * bin_width` of bin `i`, every operation rounded to a
`double`. -/
def bin_center_double (min_val bin_width : ℚ) (i : Nat) : Except Fault ℚ :=
  match dadd (i : ℚ) (1 / 2) with
  | .error e => .error e
  | .ok h =>
    match dmul h bin_width with
    | .error e => .error e
    | .ok t => dadd min_val t

/-- The second loop of `create_histogram` with the centres computed in `double`s. -/
def init_bins_double (min_val bin_width : ℚ) (bins : Int) (g : Globals ℚ) :
    Except Fault (Globals ℚ) :=
  forLoopM (fun i (g : Globals ℚ) =>
    match bin_center_double min_val bin_width i with
    | .error e => .error e
    | .ok c =>
      if i < BINS then
        .ok { g with
                bin_centers := Function.update g.bin_centers i c
                histogram := Function.update g.histogram i 0 }
      else .error .outOfBounds) 0 bins.toNat g

/-- The third loop of `create_histogram` with the indices computed in `double`s. -/
def fill_bins_double (data : Nat → ℚ) (n : Int) (min_val bin_width : ℚ) (bins : Int)
    (g : Globals ℚ) : Except Fault (Globals ℚ) :=
  forLoopM (fun i (g : Globals ℚ) =>
    match bin_index_of_double (data i) min_val bin_width bins with
    | .error e => .error e
    | .ok bin_index =>
      if 0 ≤ bin_index ∧ bin_index < BINS then
        .ok { g with histogram :=
                Function.update g.histogram bin_index.toNat (g.histogram bin_index.toNat + 1) }
      else .error .outOfBounds) 0 n.toNat g

/-- The function `create_histogram` with every operation rounded to a `double`; the samples
`data[0..n-1]` are `double`s. -/
def create_histogram_double (data : Nat → ℚ) (n bins : Int) (g : Globals ℚ) :
    Except Fault (Globals ℚ) :=
  let (min_val, max_val) := find_range data n
  match dsub max_val min_val with
  | .error e => .error e
  | .ok range =>
    match ddiv range (bins : ℚ) with
    | .error e => .error e
    | .ok bin_width =>
      match init_bins_double min_val bin_width bins g with
      | .error e => .error e
      | .ok g1 => fill_bins_double data n min_val bin_width bins g1

end Double

/-- A sample array holding the elements of `xs` from index 0 on, and zero after them. -/
def ofList {α : Type} [Zero α] (xs : List α) : Nat → α := fun i => xs.getD i 0

/-- The global arrays at program start: C initialises them to zero. -/
def Globals.zero (α : Type) [Zero α] : Globals α :=
  { bernoulli_samples := fun _ => 0
    normal_samples := fun _ => 0
    combined_samples := fun _ => 0
    histogram := fun _ => 0
    bin_centers := fun _ => 0 }

section Auxiliary

variable {α : Type} [LinearOrderedField α]

/-- The mean of the first `n` elements of `data`. -/
def meanOf (data : Nat → α) (n : Int) : α :=
  (∑ i in Finset.range n.toNat, data i) / (n : α)

/-- The population variance (divisor `n`) of the first `n` elements of `data`. -/
def varOf (data : Nat → α) (n : Int) : α :=
  (∑ i in Finset.range n.toNat, (data i - meanOf data n) ^ 2) / (n : α)

/-- The value `sqrt(-2*log(u1)) * cos(2*PI*u2)` for the pair of draws at positions `p` and
`p + 1` of a stream of `rand()` results. -/
def pairCos (m : Libm α) (RAND_MAX : Int) (results : Nat → Int) (p : Nat) : α :=
  m.sqrt (-2 * m.log ((results p : α) / (RAND_MAX : α))) *
    m.cos (2 * PI * ((results (p + 1) : α) / (RAND_MAX : α)))

/-- The value `sqrt(-2*log(u1)) * sin(2*PI*u2)` for the pair of draws at positions `p` and
`p + 1` of a stream of `rand()` results. -/
def pairSin (m : Libm α) (RAND_MAX : Int) (results : Nat → Int) (p : Nat) : α :=
  m.sqrt (-2 * m.log ((results p : α) / (RAND_MAX : α))) *
    m.sin (2 * PI * ((results (p + 1) : α) / (RAND_MAX : α)))

/-- What a run shows of its result: the fault it ended with, or the observation `f` of the
value it returned. -/
def observe {β γ : Type} (f : β → γ) (r : Except Fault β) : Fault ⊕ γ :=
  match r with
  | .ok b => .inr (f b)
  | .error e => .inl e

variable [FloorRing α]

/-- The bin of a sample `x` as a natural number: the integral part of
`(x - min_val) / bin_width`, capped at the last of `k` bins.  It is the index that
`bin_index_of` returns for a sample between the minimum and the maximum. -/
def binOf (x min_val bin_width : α) (k : Nat) : Nat :=
  min ⌊(x - min_val) / bin_width⌋.toNat (k - 1)

end Auxiliary

/-! ## Loops -/

section

variable {α : Type} [LinearOrderedField α]

/-- A loop from index 0 that adds `f i` to an accumulator computes the sum of the `f i`. -/
theorem forLoop_add (f : Nat → α) (cnt : Nat) (s0 : α) :
    forLoop (fun i (s : α) => s + f i) 0 cnt s0 = s0 + ∑ i in Finset.range cnt, f i := by
  induction cnt with
  | zero => simp [forLoop]
  | succ k ih => simp [forLoop, ih, Finset.sum_range_succ, add_assoc]

theorem forLoopM_ok_succ {σ : Type} (body : Nat → σ → Except Fault σ) (lo cnt : Nat) (s s1 : σ)
    (h : forLoopM body lo cnt s = .ok s1) :
    forLoopM body lo (cnt + 1) s = body (lo + cnt) s1 := by
  simp only [forLoopM, h]

theorem forLoopM_error_succ {σ : Type} (body : Nat → σ → Except Fault σ) (lo cnt : Nat) (s : σ)
    (e : Fault) (h : forLoopM body lo cnt s = .error e) :
    forLoopM body lo (cnt + 1) s = .error e := by
  simp only [forLoopM, h]

/-- Once a loop has faulted, running it for more iterations gives the same fault. -/
theorem forLoopM_error_add {σ : Type} (body : Nat → σ → Except Fault σ) (lo cnt : Nat) (s : σ)
    (e : Fault) (h : forLoopM body lo cnt s = .error e) (m : Nat) :
    forLoopM body lo (cnt + m) s = .error e := by
  induction m with
  | zero => exact h
  | succ m ih => exact forLoopM_error_succ body lo (cnt + m) s e ih

end

/-! ## Statistics, combination and Bernoulli samples -/

section

variable {α : Type} [LinearOrderedField α]

theorem varOf_nonneg (data : Nat → α) (n : Int) (hn : 0 < n) : 0 ≤ varOf data n := by
  have hn' : (0 : α) < (n : α) := by exact_mod_cast hn
  exact div_nonneg (Finset.sum_nonneg fun i _ => sq_nonneg _) hn'.le

/-- For a positive count, `calculate_statistics` returns the mean, the population variance
and the square root of the latter. -/
theorem calculate_statistics_eq (sqrt : α → α) (data : Nat → α) (n : Int) (hn : 0 < n) :
    calculate_statistics sqrt data n =
      .ok { mean := meanOf data n, std := sqrt (varOf data n), var := varOf data n } := by
  have hn' : (n : α) ≠ 0 := by exact_mod_cast hn.ne'
  have hv := varOf_nonneg data n hn
  simp only [calculate_statistics, fdiv, fsqrt, forLoop_add, hn', if_false, zero_add]
  have : (∑ i in Finset.range n.toNat,
      (data i - (∑ i in Finset.range n.toNat, data i) / (n : α)) *
        (data i - (∑ i in Finset.range n.toNat, data i) / (n : α))) / (n : α) = varOf data n := by
    simp only [varOf, meanOf, sq]
  rw [this, if_neg (not_lt.mpr hv)]
  rfl

/-- The state after the first `cnt ≤ N_SAMPLES` iterations of the loop of
`combine_samples`. -/
theorem combine_loop (g : Globals α) (cnt : Nat) (h : cnt ≤ N_SAMPLES) :
    forLoopM (fun i (g : Globals α) =>
      if i < N_SAMPLES then
        Except.ok { g with combined_samples :=
                Function.update g.combined_samples i (g.bernoulli_samples i + g.normal_samples i) }
      else .error Fault.outOfBounds) 0 cnt g =
    .ok { g with combined_samples := fun i =>
            if i < cnt then g.bernoulli_samples i + g.normal_samples i
            else g.combined_samples i } := by
  induction cnt with
  | zero => simp [forLoopM]
  | succ c ih =>
    rw [forLoopM_ok_succ _ _ _ _ _ (ih (Nat.le_of_succ_le h))]
    have hc : c < N_SAMPLES := h
    simp only [Nat.zero_add, hc, if_true]
    congr 2
    funext i
    by_cases hi : i = c
    · subst hi; simp
    · rw [Function.update_noteq hi]
      have : i < c + 1 ↔ i < c := by omega
      simp only [this]

/-- The whole of `combine_samples`, for every count. -/
theorem combine_samples_eq (g : Globals α) (n : Int) :
    combine_samples n g =
      if n ≤ N_SAMPLES then
        .ok { g with combined_samples := fun i =>
                if (i : Int) < n then g.bernoulli_samples i + g.normal_samples i
                else g.combined_samples i }
      else .error .outOfBounds := by
  unfold combine_samples
  split_ifs with h
  · have h1 : n.toNat ≤ N_SAMPLES := by omega
    rw [combine_loop g _ h1]
    congr 2
    funext i
    have : i < n.toNat ↔ (i : Int) < n := by omega
    simp only [this]
  · obtain ⟨m, hm⟩ : ∃ m, n.toNat = (N_SAMPLES + 1) + m := ⟨n.toNat - (N_SAMPLES + 1), by omega⟩
    rw [hm]
    apply forLoopM_error_add
    rw [forLoopM_ok_succ _ _ _ _ _ (combine_loop g N_SAMPLES le_rfl)]
    simp

/-- The state after the first `cnt ≤ N_SAMPLES` iterations of the loop of
`generate_bernoulli_samples`. -/
theorem bernoulli_loop (s : Rng × Globals α) (cnt : Nat) (h : cnt ≤ N_SAMPLES) :
    forLoopM (fun i (s : Rng × Globals α) =>
      let (r, rng) := rand s.1
      let bernoulli : Int := Int.tmod r 2
      if i < N_SAMPLES then
        Except.ok (rng, { s.2 with bernoulli_samples :=
                      Function.update s.2.bernoulli_samples i (((2 * bernoulli - 1 : Int) : α)) })
      else .error Fault.outOfBounds) 0 cnt s =
    .ok ({ s.1 with calls := s.1.calls + cnt },
         { s.2 with bernoulli_samples := fun i =>
            if i < cnt then ((2 * Int.tmod (s.1.results (s.1.calls + i)) 2 - 1 : Int) : α)
            else s.2.bernoulli_samples i }) := by
  induction cnt with
  | zero => simp [forLoopM]
  | succ c ih =>
    rw [forLoopM_ok_succ _ _ _ _ _ (ih (Nat.le_of_succ_le h))]
    have hc : c < N_SAMPLES := h
    simp only [Nat.zero_add, hc, if_true, rand]
    congr 2
    congr 1
    funext i
    by_cases hi : i = c
    · subst hi; simp
    · rw [Function.update_noteq hi]
      have : i < c + 1 ↔ i < c := by omega
      simp only [this]

end

/-! ## The histogram -/

section

variable {α : Type} [LinearOrderedField α]

/-- After `cnt` iterations the first loop of `create_histogram` holds the least and the
greatest of `data[0..cnt]`. -/
theorem find_range_loop (data : Nat → α) (cnt : Nat) :
    let r := forLoop (fun i (mm : α × α) =>
      let min_val := if data i < mm.1 then data i else mm.1
      let max_val := if data i > mm.2 then data i else mm.2
      (min_val, max_val)) 1 cnt (data 0, data 0)
    ((∃ i, i ≤ cnt ∧ data i = r.1) ∧ ∀ i, i ≤ cnt → r.1 ≤ data i) ∧
    ((∃ i, i ≤ cnt ∧ data i = r.2) ∧ ∀ i, i ≤ cnt → data i ≤ r.2) := by
  induction cnt with
  | zero =>
    simp only [forLoop]
    refine ⟨⟨⟨0, le_rfl, rfl⟩, ?_⟩, ⟨⟨0, le_rfl, rfl⟩, ?_⟩⟩ <;>
    · intro i hi
      rw [Nat.le_zero.mp hi]
  | succ c ih =>
    simp only [forLoop]
    obtain ⟨⟨⟨a, ha, ha1⟩, hmin⟩, ⟨⟨b, hb, hb1⟩, hmax⟩⟩ := ih
    have hidx : 1 + c = c + 1 := by omega
    rw [hidx]
    refine ⟨⟨?_, ?_⟩, ⟨?_, ?_⟩⟩
    · split_ifs with h
      · exact ⟨c + 1, le_rfl, rfl⟩
      · exact ⟨a, by omega, ha1⟩
    · intro i hi
      rcases Nat.lt_or_ge i (c + 1) with hlt | hge
      · have := hmin i (by omega)
        split_ifs with h
        · exact h.le.trans this
        · exact this
      · have hic : i = c + 1 := by omega
        subst hic
        split_ifs with h
        · exact le_rfl
        · exact not_lt.mp h
    · split_ifs with h
      · exact ⟨c + 1, le_rfl, rfl⟩
      · exact ⟨b, by omega, hb1⟩
    · intro i hi
      rcases Nat.lt_or_ge i (c + 1) with hlt | hge
      · have := hmax i (by omega)
        split_ifs with h
        · exact this.trans (le_of_lt h)
        · exact this
      · have hic : i = c + 1 := by omega
        subst hic
        split_ifs with h
        · exact le_rfl
        · exact not_lt.mp h

/-- For a positive count `find_range` returns the minimum and the maximum of the samples. -/
theorem find_range_eq (data : Nat → α) (n : Nat) (hn : 0 < n) (mn mx : α)
    (hmn : IsLeast (Set.image data (Set.Iio n)) mn)
    (hmx : IsGreatest (Set.image data (Set.Iio n)) mx) :
    find_range data (n : Int) = (mn, mx) := by
  obtain ⟨c, rfl⟩ : ∃ c, n = c + 1 := ⟨n - 1, by omega⟩
  have hc : (((c + 1 : Nat) : Int) - 1).toNat = c := by omega
  have h := find_range_loop data c
  unfold find_range
  rw [hc]
  obtain ⟨⟨⟨a, ha, ha1⟩, hmin⟩, ⟨⟨b, hb, hb1⟩, hmax⟩⟩ := h
  refine Prod.ext ?_ ?_
  · apply le_antisymm
    · obtain ⟨i, hi, hi1⟩ := hmn.1
      rw [← hi1]
      exact hmin i (by simpa [Nat.lt_succ_iff] using hi)
    · rw [← ha1]
      exact hmn.2 ⟨a, by simpa [Nat.lt_succ_iff] using ha, rfl⟩
  · apply le_antisymm
    · rw [← hb1]
      exact hmx.2 ⟨b, by simpa [Nat.lt_succ_iff] using hb, rfl⟩
    · obtain ⟨i, hi, hi1⟩ := hmx.1
      rw [← hi1]
      exact hmax i (by simpa [Nat.lt_succ_iff] using hi)

/-- The minimum of a non-empty sample sequence is at most its maximum. -/
theorem min_le_max (data : Nat → α) (n : Nat) (hn : 0 < n) (mn mx : α)
    (hmn : IsLeast (Set.image data (Set.Iio n)) mn)
    (hmx : IsGreatest (Set.image data (Set.Iio n)) mx) : mn ≤ mx :=
  (hmn.2 ⟨0, hn, rfl⟩).trans (hmx.2 ⟨0, hn, rfl⟩)

/-- The state after the first `cnt ≤ BINS` iterations of the second loop of
`create_histogram`. -/
theorem init_bins_loop (min_val bin_width : α) (g : Globals α) (cnt : Nat) (h : cnt ≤ BINS) :
    forLoopM (fun i (g : Globals α) =>
      if i < BINS then
        Except.ok { g with
                bin_centers :=
                  Function.update g.bin_centers i (min_val + ((i : α) + 1 / 2) * bin_width)
                histogram := Function.update g.histogram i 0 }
      else .error Fault.outOfBounds) 0 cnt g =
    .ok { g with
            bin_centers := fun i =>
              if i < cnt then min_val + ((i : α) + 1 / 2) * bin_width else g.bin_centers i
            histogram := fun i => if i < cnt then 0 else g.histogram i } := by
  induction cnt with
  | zero => simp [forLoopM]
  | succ c ih =>
    rw [forLoopM_ok_succ _ _ _ _ _ (ih (Nat.le_of_succ_le h))]
    have hc : c < BINS := h
    simp only [Nat.zero_add, hc, if_true]
    congr 2
    · funext i
      by_cases hi : i = c
      · subst hi; simp
      · rw [Function.update_noteq hi]
        have : i < c + 1 ↔ i < c := by omega
        simp only [this]
    · funext i
      by_cases hi : i = c
      · subst hi; simp
      · rw [Function.update_noteq hi]
        have : i < c + 1 ↔ i < c := by omega
        simp only [this]

/-- The minimum of the spec's histogram example `[0,0,0,1,1,2]`. -/
theorem example_min : IsLeast (Set.image (ofList [0, 0, 0, 1, 1, 2] : Nat → α) (Set.Iio 6)) 0 := by
  refine ⟨⟨0, by simp, by simp [ofList]⟩, ?_⟩
  rintro _ ⟨i, hi, rfl⟩
  have hi6 : i < 6 := hi
  interval_cases i <;> simp [ofList]

/-- The maximum of the spec's histogram example `[0,0,0,1,1,2]`. -/
theorem example_max :
    IsGreatest (Set.image (ofList [0, 0, 0, 1, 1, 2] : Nat → α) (Set.Iio 6)) 2 := by
  refine ⟨⟨5, by simp, by simp [ofList]⟩, ?_⟩
  rintro _ ⟨i, hi, rfl⟩
  have hi6 : i < 6 := hi
  interval_cases i <;> simp [ofList]

end

section

variable {α : Type} [LinearOrderedField α] [FloorRing α]

/-- For a sample between the minimum and the maximum and a positive width, the index that
the code computes is `binOf`. -/
theorem bin_index_of_eq (x mn w : α) (k : Nat) (hw : 0 < w) (hx : mn ≤ x)
    (hq : (x - mn) / w ≤ k) (hkB : k ≤ BINS) (hk : 0 < k) :
    bin_index_of x mn w (k : Int) = .ok ((binOf x mn w k : Nat) : Int) := by
  have hq0 : 0 ≤ (x - mn) / w := div_nonneg (sub_nonneg.mpr hx) hw.le
  have hf0 : 0 ≤ ⌊(x - mn) / w⌋ := Int.floor_nonneg.mpr hq0
  have hfk : ⌊(x - mn) / w⌋ ≤ (k : Int) := by
    have := Int.floor_le ((x - mn) / w)
    have h2 : ((⌊(x - mn) / w⌋ : Int) : α) ≤ ((k : Int) : α) := by
      rw [Int.cast_natCast]; exact this.trans hq
    exact_mod_cast h2
  have hB : BINS = 50 := rfl
  simp only [bin_index_of, fdiv, hw.ne', if_false, double_to_int, hq0, if_true, binOf]
  rw [if_pos ⟨by omega, by omega⟩]
  simp only
  congr 1
  split_ifs with h <;> omega

/-- The state after the first `cnt` iterations of the third loop of `create_histogram`, when
each of these samples has a bin index `b i` inside the array. -/
theorem fill_bins_loop (data : Nat → α) (mn w : α) (bins : Int) (g : Globals α) (b : Nat → Nat)
    (cnt : Nat)
    (hb : ∀ i, i < cnt → bin_index_of (data i) mn w bins = .ok ((b i : Nat) : Int) ∧ b i < BINS) :
    forLoopM (fun i (g : Globals α) =>
      match bin_index_of (data i) mn w bins with
      | .error e => .error e
      | .ok bin_index =>
        if 0 ≤ bin_index ∧ bin_index < BINS then
          Except.ok { g with histogram :=
                  Function.update g.histogram bin_index.toNat (g.histogram bin_index.toNat + 1) }
        else .error Fault.outOfBounds) 0 cnt g =
    .ok { g with histogram := fun j =>
            g.histogram j + (((Finset.range cnt).filter fun i => b i = j).card : Int) } := by
  induction cnt with
  | zero => simp [forLoopM]
  | succ c ih =>
    rw [forLoopM_ok_succ _ _ _ _ _ (ih fun i hi => hb i (by omega))]
    obtain ⟨h1, h2⟩ := hb c (by omega)
    simp only [Nat.zero_add, h1]
    rw [if_pos ⟨by omega, by exact_mod_cast h2⟩]
    congr 2
    funext j
    rw [Int.toNat_ofNat, Finset.range_succ, Finset.filter_insert]
    by_cases hj : j = b c
    · subst hj
      simp [add_assoc, add_comm]
      ring
    · rw [Function.update_noteq hj, if_neg (fun h => hj h.symm)]

/-- The arrays after `create_histogram` on samples that are not all equal: every bin has its
centre, and its count is the number of samples that `binOf` puts in it. -/
theorem create_histogram_eq (data : Nat → α) (n k : Nat) (g : Globals α) (mn mx : α)
    (hn : 0 < n) (hk : 0 < k) (hkB : k ≤ BINS)
    (hmn : IsLeast (Set.image data (Set.Iio n)) mn)
    (hmx : IsGreatest (Set.image data (Set.Iio n)) mx) (hlt : mn < mx) :
    create_histogram data (n : Int) (k : Int) g =
      .ok { g with
              bin_centers := fun i =>
                if i < k then mn + ((i : α) + 1 / 2) * ((mx - mn) / (k : α)) else g.bin_centers i
              histogram := fun j =>
                (if j < k then 0 else g.histogram j) +
                  (((Finset.range n).filter fun i =>
                      binOf (data i) mn ((mx - mn) / (k : α)) k = j).card : Int) } := by
  have hk0 : (0 : α) < (k : α) := by exact_mod_cast hk
  have hw : 0 < (mx - mn) / (k : α) := div_pos (sub_pos.mpr hlt) hk0
  unfold create_histogram
  rw [find_range_eq data n hn mn mx hmn hmx]
  simp only [fdiv, Int.cast_natCast, hk0.ne', if_false, init_bins, fill_bins, Int.toNat_ofNat]
  rw [init_bins_loop _ _ _ _ hkB]
  simp only
  rw [fill_bins_loop data mn _ (k : Int) _ (fun i => binOf (data i) mn ((mx - mn) / (k : α)) k) n]
  intro i hi
  have hmem : data i ∈ Set.image data (Set.Iio n) := ⟨i, hi, rfl⟩
  have h1 : mn ≤ data i := hmn.2 hmem
  have h2 : data i ≤ mx := hmx.2 hmem
  refine ⟨bin_index_of_eq _ _ _ _ hw h1 ?_ hkB hk, ?_⟩
  · rw [div_le_iff₀ hw, mul_div_cancel₀ _ hk0.ne']
    linarith
  · have : binOf (data i) mn ((mx - mn) / (k : α)) k ≤ k - 1 := min_le_right _ _
    omega

/-- On samples that are all equal the third loop of `create_histogram` divides zero by the
zero bin width at its first sample. -/
theorem create_histogram_degenerate (data : Nat → α) (n k : Nat) (g : Globals α) (c : α)
    (hn : 0 < n) (hk : 0 < k) (hkB : k ≤ BINS) (hall : ∀ i, i < n → data i = c) :
    create_histogram data (n : Int) (k : Int) g = .error .divByZero := by
  have hk0 : (0 : α) < (k : α) := by exact_mod_cast hk
  have hmn : IsLeast (Set.image data (Set.Iio n)) c :=
    ⟨⟨0, hn, hall 0 hn⟩, by rintro _ ⟨i, hi, rfl⟩; exact (hall i hi).ge⟩
  have hmx : IsGreatest (Set.image data (Set.Iio n)) c :=
    ⟨⟨0, hn, hall 0 hn⟩, by rintro _ ⟨i, hi, rfl⟩; exact (hall i hi).le⟩
  unfold create_histogram
  rw [find_range_eq data n hn c c hmn hmx]
  simp only [fdiv, Int.cast_natCast, hk0.ne', if_false, init_bins, fill_bins, Int.toNat_ofNat,
    sub_self, zero_div]
  rw [init_bins_loop _ _ _ _ hkB]
  simp only
  obtain ⟨m, rfl⟩ : ∃ m, n = 1 + m := ⟨n - 1, by omega⟩
  apply forLoopM_error_add
  simp [forLoopM, bin_index_of, fdiv, hall 0 hn]

/-- Membership in a bin other than the last, as an interval. -/
theorem binOf_eq_iff (x mn w : α) (k j : Nat) (hw : 0 < w) (hx : mn ≤ x) (hj : j + 1 < k) :
    binOf x mn w k = j ↔ mn + (j : α) * w ≤ x ∧ x < mn + ((j : α) + 1) * w := by
  have hq0 : 0 ≤ (x - mn) / w := div_nonneg (sub_nonneg.mpr hx) hw.le
  have hf0 : 0 ≤ ⌊(x - mn) / w⌋ := Int.floor_nonneg.mpr hq0
  have h1 : binOf x mn w k = j ↔ ⌊(x - mn) / w⌋ = (j : Int) := by
    unfold binOf
    constructor
    · intro h
      have : min ⌊(x - mn) / w⌋.toNat (k - 1) = j := h
      rcases min_choice ⌊(x - mn) / w⌋.toNat (k - 1) with h2 | h2 <;> omega
    · intro h
      rw [h, Int.toNat_ofNat]
      exact min_eq_left (by omega)
  rw [h1, Int.floor_eq_iff, le_div_iff₀ hw, div_lt_iff₀ hw, Int.cast_natCast]
  constructor
  · rintro ⟨a, b⟩; constructor <;> linarith
  · rintro ⟨a, b⟩; constructor <;> linarith

/-- Membership in the last bin, as an interval closed at the maximum. -/
theorem binOf_eq_last_iff (x mn w : α) (k : Nat) (hw : 0 < w) (hx : mn ≤ x) (hk : 0 < k) :
    binOf x mn w k = k - 1 ↔ mn + ((k : α) - 1) * w ≤ x := by
  have hq0 : 0 ≤ (x - mn) / w := div_nonneg (sub_nonneg.mpr hx) hw.le
  have hf0 : 0 ≤ ⌊(x - mn) / w⌋ := Int.floor_nonneg.mpr hq0
  have h1 : binOf x mn w k = k - 1 ↔ ((k - 1 : Nat) : Int) ≤ ⌊(x - mn) / w⌋ := by
    unfold binOf
    constructor
    · intro h
      have : k - 1 ≤ ⌊(x - mn) / w⌋.toNat := by
        rw [← h]; exact min_le_left _ _
      omega
    · intro h
      exact min_eq_right (by omega)
  have hc : (((k - 1 : Nat) : Int) : α) = (k : α) - 1 := by
    rw [Int.cast_natCast, Nat.cast_sub hk, Nat.cast_one]
  rw [h1, Int.le_floor, le_div_iff₀ hw, hc]
  constructor <;> intro a <;> linarith

end

/-! ## Further facts on the statistics and the histogram range -/

section

variable {α : Type} [LinearOrderedField α]

/-- For a positive count `find_range` returns the least and the greatest sample. -/
theorem find_range_spec (data : Nat → α) (n : Nat) (hn : 0 < n) :
    IsLeast (Set.image data (Set.Iio n)) (find_range data (n : Int)).1 ∧
    IsGreatest (Set.image data (Set.Iio n)) (find_range data (n : Int)).2 := by
  obtain ⟨c, rfl⟩ : ∃ c, n = c + 1 := ⟨n - 1, by omega⟩
  have hc : (((c + 1 : Nat) : Int) - 1).toNat = c := by omega
  have h := find_range_loop data c
  unfold find_range
  rw [hc]
  obtain ⟨⟨⟨a, ha, ha1⟩, hmin⟩, ⟨⟨b, hb, hb1⟩, hmax⟩⟩ := h
  refine ⟨⟨⟨a, Nat.lt_succ_of_le ha, ha1⟩, ?_⟩, ⟨⟨b, Nat.lt_succ_of_le hb, hb1⟩, ?_⟩⟩
  · rintro _ ⟨i, hi, rfl⟩
    exact hmin i (Nat.lt_succ_iff.mp hi)
  · rintro _ ⟨i, hi, rfl⟩
    exact hmax i (Nat.lt_succ_iff.mp hi)

/-- The variance is zero exactly when every sample equals the first one. -/
theorem varOf_eq_zero_iff (data : Nat → α) (n : Nat) (hn : 0 < n) :
    varOf data (n : Int) = 0 ↔ ∀ i, i < n → data i = data 0 := by
  have hn0 : ((n : Int) : α) ≠ 0 := by
    rw [Int.cast_natCast]; exact_mod_cast hn.ne'
  unfold varOf
  rw [div_eq_zero_iff, or_iff_left hn0, Int.toNat_ofNat,
    Finset.sum_eq_zero_iff_of_nonneg (fun i _ => sq_nonneg _)]
  constructor
  · intro h i hi
    have h1 := h i (Finset.mem_range.mpr hi)
    have h2 := h 0 (Finset.mem_range.mpr hn)
    rw [sq_eq_zero_iff, sub_eq_zero] at h1 h2
    rw [h1, h2]
  · intro h i hi
    have hm : meanOf data (n : Int) = data 0 := by
      unfold meanOf
      rw [Int.toNat_ofNat, Finset.sum_congr rfl (fun i hi => h i (Finset.mem_range.mp hi)),
        Finset.sum_const, Finset.card_range, nsmul_eq_mul, Int.cast_natCast]
      rw [Int.cast_natCast] at hn0
      field_simp
    rw [hm, h i (Finset.mem_range.mp hi), sub_self]
    ring

/-- For samples that all square to one, the variance is one minus the square of the mean. -/
theorem varOf_of_sq_eq_one (data : Nat → α) (n : Nat) (hn : 0 < n)
    (h : ∀ i, i < n → data i ^ 2 = 1) :
    varOf data (n : Int) = 1 - meanOf data (n : Int) ^ 2 := by
  have hn0 : (n : α) ≠ 0 := by exact_mod_cast hn.ne'
  have hsum : ∑ i in Finset.range n, data i = (n : α) * meanOf data (n : Int) := by
    unfold meanOf
    rw [Int.toNat_ofNat, Int.cast_natCast]
    field_simp
  have hexp : ∀ i ∈ Finset.range n, (data i - meanOf data (n : Int)) ^ 2 =
      1 - 2 * meanOf data (n : Int) * data i + meanOf data (n : Int) ^ 2 := by
    intro i hi
    have := h i (Finset.mem_range.mp hi)
    linear_combination this
  unfold varOf
  rw [Int.toNat_ofNat, Finset.sum_congr rfl hexp, Finset.sum_add_distrib, Finset.sum_sub_distrib,
    ← Finset.mul_sum, hsum, Finset.sum_const, Finset.sum_const, Finset.card_range,
    nsmul_eq_mul, nsmul_eq_mul, Int.cast_natCast]
  field_simp
  ring

/-- The mean of elementwise sums is the sum of the means. -/
theorem meanOf_add (a b c : Nat → α) (n : Nat) (h : ∀ i, i < n → c i = a i + b i) :
    meanOf c (n : Int) = meanOf a (n : Int) + meanOf b (n : Int) := by
  unfold meanOf
  rw [Int.toNat_ofNat, Finset.sum_congr rfl (fun i hi => h i (Finset.mem_range.mp hi)),
    Finset.sum_add_distrib, add_div]

/-- Every Bernoulli sample generated from non-negative `rand()` results squares to one. -/
theorem bernoulli_sq (r : Int) (hr : 0 ≤ r) : (((2 * Int.tmod r 2 - 1 : Int) : α)) ^ 2 = 1 := by
  have hmod : Int.tmod r 2 = r % 2 := Int.tmod_eq_emod hr (by norm_num)
  rw [hmod]
  rcases Int.emod_two_eq_zero_or_one r with h | h <;> rw [h] <;> norm_num

end

/-! ## The Box-Muller generator -/

section

variable {α : Type} [LinearOrderedField α]

/-- A call of `box_muller` with the cache empty, when the first draw is in the domain of
`sqrt(-2*log(u1))`: two draws are taken, the cosine value is returned and the sine value is
cached. -/
theorem box_muller_fresh (m : Libm α) (R : Int) (rng : Rng) (b : BoxMuller α)
    (hgen : b.generate = 0) (hR : R ≠ 0)
    (hpos : 0 < (rng.results rng.calls : α) / (R : α))
    (hrad : 0 ≤ -2 * m.log ((rng.results rng.calls : α) / (R : α))) :
    box_muller m R (rng, b) =
      .ok (pairCos m R rng.results rng.calls, { rng with calls := rng.calls + 2 },
           { z0 := pairCos m R rng.results rng.calls
             z1 := pairSin m R rng.results rng.calls
             generate := 1 }) := by
  have hR0 : (R : α) ≠ 0 := by exact_mod_cast hR
  simp only [box_muller, hgen, if_true, rand, unit_draw, fdiv, hR0, if_false, radius, flog,
    if_neg (not_le.mpr hpos), fsqrt, if_neg (not_lt.mpr hrad), pairCos, pairSin]

/-- A call of `box_muller` with the cache full: no draw is taken and the cached value is
returned. -/
theorem box_muller_cached (m : Libm α) (R : Int) (rng : Rng) (b : BoxMuller α)
    (hgen : b.generate ≠ 0) :
    box_muller m R (rng, b) = .ok (b.z1, rng, { z0 := b.z0, z1 := b.z1, generate := 0 }) := by
  simp only [box_muller, hgen, if_false]

/-- A call of `box_muller` with the cache empty whose first draw is zero applies `log` to
zero. -/
theorem box_muller_zero_draw (m : Libm α) (R : Int) (rng : Rng) (b : BoxMuller α)
    (hgen : b.generate = 0) (hR : R ≠ 0) (hz : rng.results rng.calls = 0) :
    box_muller m R (rng, b) = .error .logOfNonPositive := by
  have hR0 : (R : α) ≠ 0 := by exact_mod_cast hR
  simp only [box_muller, hgen, if_true, rand, unit_draw, fdiv, hR0, if_false, radius, flog, hz,
    Int.cast_zero, zero_div, le_refl]

/-- The state after the first `cnt ≤ N_SAMPLES` iterations of the loop of
`generate_normal_samples`, started with the cache empty, when the first draw of every pair
is in the domain of `sqrt(-2*log(u1))`. -/
theorem normal_loop (m : Libm α) (R : Int) (rng : Rng) (b : BoxMuller α) (g : Globals α)
    (hgen : b.generate = 0) (cnt : Nat) (hcnt : cnt ≤ N_SAMPLES)
    (H : ∀ j, 2 * j < cnt → R ≠ 0 ∧
      0 < (rng.results (rng.calls + 2 * j) : α) / (R : α) ∧
      0 ≤ -2 * m.log ((rng.results (rng.calls + 2 * j) : α) / (R : α))) :
    ∃ (bc : BoxMuller α) (gc : Globals α),
      generate_normal_samples m R (cnt : Int) (rng, b, g) =
        .ok ({ rng with calls := rng.calls + 2 * ((cnt + 1) / 2) }, bc, gc) ∧
      bc.generate = ((cnt % 2 : Nat) : Int) ∧
      (cnt % 2 = 1 → bc.z1 = pairSin m R rng.results (rng.calls + 2 * (cnt / 2))) ∧
      (∀ i, i < cnt → gc.normal_samples i =
        if i % 2 = 0 then pairCos m R rng.results (rng.calls + 2 * (i / 2))
        else pairSin m R rng.results (rng.calls + 2 * (i / 2))) ∧
      gc.bernoulli_samples = g.bernoulli_samples ∧
      gc.combined_samples = g.combined_samples := by
  induction cnt with
  | zero =>
    refine ⟨b, g, ?_, by simpa using hgen, by simp, by simp, rfl, rfl⟩
    simp [generate_normal_samples, forLoopM]
  | succ c ih =>
    obtain ⟨bc, gc, hrun, hg, hz, hs, hb1, hb2⟩ :=
      ih (Nat.le_of_succ_le hcnt) (fun j hj => H j (by omega))
    have hc : c < N_SAMPLES := hcnt
    simp only [generate_normal_samples, Int.toNat_ofNat] at hrun ⊢
    rw [forLoopM_ok_succ _ _ _ _ _ hrun]
    simp only [Nat.zero_add]
    rcases Nat.mod_two_eq_zero_or_one c with hpar | hpar
    · -- the cache is empty: a fresh pair is drawn
      have hcalls : rng.calls + 2 * ((c + 1) / 2) = rng.calls + 2 * (c / 2) := by omega
      obtain ⟨hR, hpos, hrad⟩ := H (c / 2) (by omega)
      have hgen0 : bc.generate = 0 := by rw [hg, hpar]; rfl
      rw [box_muller_fresh m R _ bc hgen0 hR (by simpa [hcalls] using hpos)
        (by simpa [hcalls] using hrad)]
      simp only [hc, if_true]
      have hnext : rng.calls + 2 * ((c + 1) / 2) + 2 = rng.calls + 2 * ((c + 1 + 1) / 2) := by
        omega
      rw [hnext]
      refine ⟨_, _, rfl, ?_, ?_, ?_, hb1, hb2⟩
      · have : (c + 1) % 2 = 1 := by omega
        rw [this]; rfl
      · intro _
        have : (c + 1) / 2 = c / 2 := by omega
        simp only [hcalls, this]
      · intro i hi
        by_cases hic : i = c
        · subst hic
          simp only [Function.update_same, hpar, if_true, hcalls]
        · simp only [Function.update_noteq hic]
          exact hs i (by omega)
    · -- the cache is full: the cached sine value is returned
      have hgen1 : bc.generate ≠ 0 := by rw [hg, hpar]; decide
      rw [box_muller_cached m R _ bc hgen1]
      simp only [hc, if_true]
      have hnext : rng.calls + 2 * ((c + 1) / 2) = rng.calls + 2 * ((c + 1 + 1) / 2) := by
        omega
      rw [hnext]
      refine ⟨_, _, rfl, ?_, ?_, ?_, hb1, hb2⟩
      · have : (c + 1) % 2 = 0 := by omega
        rw [this]; rfl
      · intro h
        omega
      · intro i hi
        by_cases hic : i = c
        · subst hic
          have : ¬ i % 2 = 0 := by omega
          simp only [Function.update_same, this, if_false]
          exact hz hpar
        · simp only [Function.update_noteq hic]
          exact hs i (by omega)

end

/-- In the reals, a first draw `0 < r ≤ RAND_MAX` is in the domain of `sqrt(-2*log(u1))`. -/
theorem real_draw_in_domain (R r : Int) (h0 : 0 < r) (h1 : r ≤ R) :
    R ≠ 0 ∧ 0 < (r : ℝ) / (R : ℝ) ∧ 0 ≤ -2 * Real.log ((r : ℝ) / (R : ℝ)) := by
  have hR : (0 : ℝ) < (R : ℝ) := by exact_mod_cast h0.trans_le h1
  have hr : (0 : ℝ) < (r : ℝ) := by exact_mod_cast h0
  have hle : (r : ℝ) / (R : ℝ) ≤ 1 := by
    rw [div_le_one hR]; exact_mod_cast h1
  have hpos : 0 < (r : ℝ) / (R : ℝ) := div_pos hr hR
  refine ⟨by omega, hpos, ?_⟩
  have := Real.log_nonpos hpos.le hle
  linarith

/-! ## Runs in double arithmetic -/

/-- A run that shows the observation `v` returned a value with that observation. -/
theorem observe_ok {β γ : Type} (f : β → γ) (r : Except Fault β) (v : γ)
    (h : observe f r = .inr v) : ∃ b, r = .ok b ∧ f b = v := by
  cases r with
  | ok b => exact ⟨b, rfl, by simpa [observe] using h⟩
  | error e => simp [observe] at h

/-- A run that shows the value `v` itself returned `v`. -/
theorem observe_id {β : Type} (r : Except Fault β) (v : β) (h : observe id r = .inr v) :
    r = .ok v := by
  obtain ⟨b, hb, hv⟩ := observe_ok id r v h
  rw [hb]
  exact congrArg Except.ok hv

/-- A run that shows a fault ended with it. -/
theorem observe_error {β γ : Type} (f : β → γ) (r : Except Fault β) (e : Fault)
    (h : observe f r = .inl e) : r = .error e := by
  cases r with
  | ok b => simp [observe] at h
  | error e1 =>
    simp only [observe, Sum.inl.injEq] at h
    rw [h]

/-! ## The claims -/

/-- C1: for a sample sequence of length `n > 0` over the reals, `calculate_statistics`
returns mean `(Σ xᵢ)/n`, variance `(Σ (xᵢ - mean)²)/n` (divisor `n`) and standard deviation
`sqrt(variance)`; on `[1,2,3,4,5]` these are `3`, `2` and `sqrt 2`. -/
theorem calculate_statistics_spec (data : Nat → ℝ) (n : Int) (hn : 0 < n) :
    calculate_statistics Real.sqrt data n = .ok
        { mean := (∑ i in Finset.range n.toNat, data i) / (n : ℝ)
          std := Real.sqrt ((∑ i in Finset.range n.toNat,
                    (data i - (∑ i in Finset.range n.toNat, data i) / (n : ℝ)) ^ 2) / (n : ℝ))
          var := (∑ i in Finset.range n.toNat,
                    (data i - (∑ i in Finset.range n.toNat, data i) / (n : ℝ)) ^ 2) / (n : ℝ) }
      ∧ calculate_statistics Real.sqrt (ofList [1, 2, 3, 4, 5]) 5 =
          .ok { mean := 3, std := Real.sqrt 2, var := 2 } := by
  refine ⟨calculate_statistics_eq Real.sqrt data n hn, ?_⟩
  rw [calculate_statistics_eq Real.sqrt _ 5 (by norm_num)]
  have hm : meanOf (ofList [1, 2, 3, 4, 5] : Nat → ℝ) 5 = 3 := by
    simp [meanOf, ofList, Finset.sum_range_succ]; norm_num
  have hv : varOf (ofList [1, 2, 3, 4, 5] : Nat → ℝ) 5 = 2 := by
    simp [varOf, hm, ofList, Finset.sum_range_succ]; norm_num
  rw [hm, hv]

/-- The statistics of the three samples `[2, 4, 9]`. -/
theorem calculate_statistics_spec_witness :
    (0 : Int) < 3 ∧ calculate_statistics Real.sqrt (ofList [2, 4, 9]) 3 = .ok
        { mean := (∑ i in Finset.range (3 : Int).toNat, (ofList [2, 4, 9] : Nat → ℝ) i) / ((3 : Int) : ℝ)
          std := Real.sqrt ((∑ i in Finset.range (3 : Int).toNat,
                    ((ofList [2, 4, 9] : Nat → ℝ) i - (∑ i in Finset.range (3 : Int).toNat, (ofList [2, 4, 9] : Nat → ℝ) i) / ((3 : Int) : ℝ)) ^ 2) / ((3 : Int) : ℝ))
          var := (∑ i in Finset.range (3 : Int).toNat,
                    ((ofList [2, 4, 9] : Nat → ℝ) i - (∑ i in Finset.range (3 : Int).toNat, (ofList [2, 4, 9] : Nat → ℝ) i) / ((3 : Int) : ℝ)) ^ 2) / ((3 : Int) : ℝ) } :=
  ⟨by decide, (calculate_statistics_spec (ofList [2, 4, 9]) 3 (by decide)).1⟩

/-- C2, the code at a failing input: on the two samples `0` and `2^-1074` (the least
positive `double`) with three bins the minimum and the maximum differ, but the width
`2^-1074 / 3` rounds to zero and `create_histogram` divides by it at the first sample; no
sample is counted. -/
theorem create_histogram_double_tiny_range :
    find_range (ofList [0, 1 / 2 ^ 1074] : Nat → ℚ) 2 = (0, 1 / 2 ^ 1074) ∧
    create_histogram_double (ofList [0, 1 / 2 ^ 1074]) 2 3 (Globals.zero ℚ) =
      .error .divByZero :=
  ⟨by decide!, observe_error (fun _ => ()) _ _ (by decide!)⟩

/-- The counts in exact arithmetic: for `n > 0` samples whose minimum and maximum differ and
`0 < k ≤ BINS`, `create_histogram` returns and the counts `histogram[0..k-1]` sum to `n`.
There the width is positive whenever the maximum is above the minimum. -/
theorem create_histogram_counts_sum {α : Type} [LinearOrderedField α] [FloorRing α]
    (data : Nat → α) (n k : Nat) (g : Globals α) (mn mx : α)
    (hn : 0 < n) (hk : 0 < k) (hkB : k ≤ BINS)
    (hmn : IsLeast (Set.image data (Set.Iio n)) mn)
    (hmx : IsGreatest (Set.image data (Set.Iio n)) mx) (hne : mn ≠ mx) :
    ∃ g1 : Globals α, create_histogram data (n : Int) (k : Int) g = .ok g1 ∧
      ∑ j in Finset.range k, g1.histogram j = (n : Int) := by
  have hlt : mn < mx := lt_of_le_of_ne (min_le_max data n hn mn mx hmn hmx) hne
  refine ⟨_, create_histogram_eq data n k g mn mx hn hk hkB hmn hmx hlt, ?_⟩
  simp only
  have h0 : ∀ j ∈ Finset.range k,
      ((if j < k then 0 else g.histogram j) +
        (((Finset.range n).filter fun i =>
            binOf (data i) mn ((mx - mn) / (k : α)) k = j).card : Int)) =
        (((Finset.range n).filter fun i =>
            binOf (data i) mn ((mx - mn) / (k : α)) k = j).card : Int) := by
    intro j hj
    rw [if_pos (Finset.mem_range.mp hj), zero_add]
  rw [Finset.sum_congr rfl h0, ← Nat.cast_sum]
  congr 1
  have hmaps : ∀ i ∈ Finset.range n,
      binOf (data i) mn ((mx - mn) / (k : α)) k ∈ Finset.range k := by
    intro i _
    have : binOf (data i) mn ((mx - mn) / (k : α)) k ≤ k - 1 := min_le_right _ _
    exact Finset.mem_range.mpr (by omega)
  rw [← Finset.card_eq_sum_card_fiberwise hmaps, Finset.card_range]

/-- The counts of `[0,0,0,1,1,2]` in three bins sum to 6. -/
theorem create_histogram_counts_sum_witness :
    ∃ g1 : Globals ℚ,
      create_histogram (ofList [0, 0, 0, 1, 1, 2]) ((6 : Nat) : Int) ((3 : Nat) : Int)
        (Globals.zero ℚ) = .ok g1 ∧
      ∑ j in Finset.range 3, g1.histogram j = ((6 : Nat) : Int) :=
  create_histogram_counts_sum (ofList [0, 0, 0, 1, 1, 2]) 6 3 (Globals.zero ℚ) 0 2
    (by decide) (by decide) (by decide) example_min example_max (by norm_num)

/-- C4, refuted as stated: for the samples `0, 9, 18` with 14 bins the sample `9` lies in
the interval of bin 7, `[min + 7w, min + 8w)` with `w = 18/14`, but `create_histogram`
computes `9 / width` as a `double` below 7 and counts it in bin 6; bin 7 stays empty. -/
theorem create_histogram_double_boundary_sample :
    ∃ g1 : Globals ℚ,
      create_histogram_double (ofList [0, 9, 18]) 3 14 (Globals.zero ℚ) = .ok g1 ∧
      g1.histogram 6 = 1 ∧ g1.histogram 7 = 0 ∧
      (((Finset.range 3).filter fun i =>
          (0 : ℚ) + 7 * ((18 - 0) / 14) ≤ (ofList [0, 9, 18] : Nat → ℚ) i ∧
          (ofList [0, 9, 18] : Nat → ℚ) i < 0 + (7 + 1) * ((18 - 0) / 14)).card : Int) = 1 := by
  obtain ⟨g1, h1, h2⟩ := observe_ok (fun g : Globals ℚ => (g.histogram 6, g.histogram 7))
    (create_histogram_double (ofList [0, 9, 18]) 3 14 (Globals.zero ℚ)) (1, 0) (by decide!)
  refine ⟨g1, h1, congrArg Prod.fst h2, congrArg Prod.snd h2, by decide!⟩

/-- C4, in exact arithmetic: for `n > 0` samples with `max > min` and `0 < k ≤ BINS`, with
`w = (max - min)/k`, after `create_histogram` the count of bin `j < k-1` is the number of
samples `x` with `min + j*w ≤ x < min + (j+1)*w`, and the count of bin `k-1` is the number
of samples with `min + (k-1)*w ≤ x ≤ max`. -/
theorem create_histogram_bins_are_intervals {α : Type} [LinearOrderedField α] [FloorRing α]
    (data : Nat → α) (n k : Nat) (g : Globals α) (mn mx : α)
    (hn : 0 < n) (hk : 0 < k) (hkB : k ≤ BINS)
    (hmn : IsLeast (Set.image data (Set.Iio n)) mn)
    (hmx : IsGreatest (Set.image data (Set.Iio n)) mx) (hlt : mn < mx) :
    ∃ g1 : Globals α, create_histogram data (n : Int) (k : Int) g = .ok g1 ∧
      (∀ j, j + 1 < k →
        g1.histogram j = (((Finset.range n).filter fun i =>
          mn + (j : α) * ((mx - mn) / (k : α)) ≤ data i ∧
          data i < mn + ((j : α) + 1) * ((mx - mn) / (k : α))).card : Int)) ∧
      g1.histogram (k - 1) = (((Finset.range n).filter fun i =>
          mn + ((k : α) - 1) * ((mx - mn) / (k : α)) ≤ data i ∧ data i ≤ mx).card : Int) := by
  have hk0 : (0 : α) < (k : α) := by exact_mod_cast hk
  have hw : 0 < (mx - mn) / (k : α) := div_pos (sub_pos.mpr hlt) hk0
  have hlo : ∀ i ∈ Finset.range n, mn ≤ data i := fun i hi =>
    hmn.2 ⟨i, Finset.mem_range.mp hi, rfl⟩
  have hhi : ∀ i ∈ Finset.range n, data i ≤ mx := fun i hi =>
    hmx.2 ⟨i, Finset.mem_range.mp hi, rfl⟩
  refine ⟨_, create_histogram_eq data n k g mn mx hn hk hkB hmn hmx hlt, ?_, ?_⟩
  · intro j hj
    simp only
    rw [if_pos (by omega), zero_add]
    congr 2
    apply Finset.filter_congr
    intro i hi
    exact binOf_eq_iff (data i) mn _ k j hw (hlo i hi) hj
  · simp only
    rw [if_pos (by omega), zero_add]
    congr 2
    apply Finset.filter_congr
    intro i hi
    rw [binOf_eq_last_iff (data i) mn _ k hw (hlo i hi) hk]
    exact ⟨fun h => ⟨h, hhi i hi⟩, fun h => h.1⟩

/-- The three bins of `[0,0,0,1,1,2]` as intervals of width `2/3`. -/
theorem create_histogram_bins_are_intervals_witness :
    ∃ g1 : Globals ℚ,
      create_histogram (ofList [0, 0, 0, 1, 1, 2]) ((6 : Nat) : Int) ((3 : Nat) : Int)
        (Globals.zero ℚ) = .ok g1 ∧
      (∀ j, j + 1 < 3 →
        g1.histogram j = (((Finset.range 6).filter fun i =>
          0 + (j : ℚ) * ((2 - 0) / ((3 : Nat) : ℚ)) ≤ (ofList [0, 0, 0, 1, 1, 2] : Nat → ℚ) i ∧
          (ofList [0, 0, 0, 1, 1, 2] : Nat → ℚ) i <
            0 + ((j : ℚ) + 1) * ((2 - 0) / ((3 : Nat) : ℚ))).card : Int)) ∧
      g1.histogram (3 - 1) = (((Finset.range 6).filter fun i =>
          0 + (((3 : Nat) : ℚ) - 1) * ((2 - 0) / ((3 : Nat) : ℚ)) ≤
            (ofList [0, 0, 0, 1, 1, 2] : Nat → ℚ) i ∧
          (ofList [0, 0, 0, 1, 1, 2] : Nat → ℚ) i ≤ 2).card : Int) :=
  create_histogram_bins_are_intervals (ofList [0, 0, 0, 1, 1, 2]) 6 3 (Globals.zero ℚ) 0 2
    (by decide) (by decide) (by decide) example_min example_max (by norm_num)

/-- C5: for `n > 0` samples and `0 < k ≤ BINS`, the first two loops of `create_histogram`
find the least and the greatest sample and set `bin_centers[i] = min + (i + 0.5) * width`
for every `i < k`, with `width = (max - min)/k`; the third loop does not change them, so
they are the centres whenever `create_histogram` returns, which it does if `max ≠ min`. -/
theorem create_histogram_bin_centers {α : Type} [LinearOrderedField α] [FloorRing α]
    (data : Nat → α) (n k : Nat) (g : Globals α) (mn mx : α)
    (hn : 0 < n) (hk : 0 < k) (hkB : k ≤ BINS)
    (hmn : IsLeast (Set.image data (Set.Iio n)) mn)
    (hmx : IsGreatest (Set.image data (Set.Iio n)) mx) :
    (find_range data (n : Int) = (mn, mx) ∧
      fdiv (mx - mn) (((k : Int) : α)) = .ok ((mx - mn) / (k : α)) ∧
      ∃ g1 : Globals α, init_bins mn ((mx - mn) / (k : α)) (k : Int) g = .ok g1 ∧
        ∀ i, i < k → g1.bin_centers i = mn + ((i : α) + 1 / 2) * ((mx - mn) / (k : α))) ∧
    (∀ g2 : Globals α, create_histogram data (n : Int) (k : Int) g = .ok g2 →
      ∀ i, i < k → g2.bin_centers i = mn + ((i : α) + 1 / 2) * ((mx - mn) / (k : α))) ∧
    (mn ≠ mx → ∃ g2 : Globals α, create_histogram data (n : Int) (k : Int) g = .ok g2) := by
  have hk0 : (0 : α) < (k : α) := by exact_mod_cast hk
  have hle : mn ≤ mx := min_le_max data n hn mn mx hmn hmx
  refine ⟨⟨find_range_eq data n hn mn mx hmn hmx, ?_, ?_⟩, ?_, ?_⟩
  · simp [fdiv, hk0.ne']
  · unfold init_bins
    rw [Int.toNat_ofNat, init_bins_loop _ _ _ _ hkB]
    refine ⟨_, rfl, ?_⟩
    intro i hi
    simp only [hi, if_true]
  · intro g2 hg2 i hi
    rcases hle.lt_or_eq with hlt | heq
    · rw [create_histogram_eq data n k g mn mx hn hk hkB hmn hmx hlt] at hg2
      cases hg2
      simp only [hi, if_true]
    · exfalso
      have hall : ∀ i, i < n → data i = mn := fun i hi =>
        le_antisymm (heq ▸ hmx.2 ⟨i, hi, rfl⟩) (hmn.2 ⟨i, hi, rfl⟩)
      rw [create_histogram_degenerate data n k g mn hn hk hkB hall] at hg2
      cases hg2
  · intro hne
    exact ⟨_, create_histogram_eq data n k g mn mx hn hk hkB hmn hmx (lt_of_le_of_ne hle hne)⟩

/-- The centres of the three bins of `[0,0,0,1,1,2]`. -/
theorem create_histogram_bin_centers_witness :
    (find_range (ofList [0, 0, 0, 1, 1, 2] : Nat → ℚ) ((6 : Nat) : Int) = (0, 2) ∧
      fdiv ((2 : ℚ) - 0) ((((3 : Nat) : Int) : ℚ)) = .ok ((2 - 0) / ((3 : Nat) : ℚ)) ∧
      ∃ g1 : Globals ℚ,
        init_bins 0 ((2 - 0) / ((3 : Nat) : ℚ)) ((3 : Nat) : Int) (Globals.zero ℚ) = .ok g1 ∧
        ∀ i, i < 3 → g1.bin_centers i = 0 + ((i : ℚ) + 1 / 2) * ((2 - 0) / ((3 : Nat) : ℚ))) ∧
    (∀ g2 : Globals ℚ,
      create_histogram (ofList [0, 0, 0, 1, 1, 2]) ((6 : Nat) : Int) ((3 : Nat) : Int)
        (Globals.zero ℚ) = .ok g2 →
      ∀ i, i < 3 → g2.bin_centers i = 0 + ((i : ℚ) + 1 / 2) * ((2 - 0) / ((3 : Nat) : ℚ))) ∧
    ((0 : ℚ) ≠ 2 → ∃ g2 : Globals ℚ,
      create_histogram (ofList [0, 0, 0, 1, 1, 2]) ((6 : Nat) : Int) ((3 : Nat) : Int)
        (Globals.zero ℚ) = .ok g2) :=
  create_histogram_bin_centers (ofList [0, 0, 0, 1, 1, 2]) 6 3 (Globals.zero ℚ) 0 2
    (by decide) (by decide) (by decide) example_min example_max

/-- C6, the code at a failing input: on the two equal samples `[1, 1]` with three bins
`create_histogram` does not put both samples in bin 0, it divides zero by the zero width. -/
theorem create_histogram_equal_samples :
    create_histogram (ofList [1, 1] : Nat → ℚ) 2 3 (Globals.zero ℚ) = .error .divByZero := by
  refine create_histogram_degenerate (ofList [1, 1]) 2 3 (Globals.zero ℚ) 1
    (by decide) (by decide) (by decide) ?_
  intro i hi
  interval_cases i <;> simp [ofList]

/-- C7, refuted as stated: on the empty sequence the call is not refused by a check, it runs
into the division by `n = 0`. -/
theorem calculate_statistics_zero_not_rejected :
    calculate_statistics Real.sqrt (ofList []) 0 ≠ .error .rejected ∧
    calculate_statistics Real.sqrt (ofList []) 0 = .error .divByZero := by
  have h : calculate_statistics Real.sqrt (ofList []) 0 = .error .divByZero := by
    simp [calculate_statistics, fdiv]
  rw [h]
  exact ⟨by simp, rfl⟩

/-- C7, as the code has it: with `n = 0` `calculate_statistics` makes no check and evaluates
`sum / n`, zero divided by zero, which has no value; no statistics result. -/
theorem calculate_statistics_zero {α : Type} [LinearOrderedField α] (sqrt : α → α)
    (data : Nat → α) : calculate_statistics sqrt data 0 = .error .divByZero := by
  simp [calculate_statistics, fdiv]

/-- C8: for `0 ≤ n ≤ N_SAMPLES` and any contents of the arrays, `combine_samples(n)` returns
with `combined_samples[i] = bernoulli_samples[i] + normal_samples[i]` for every `i < n` and
leaves the two input arrays unchanged. -/
theorem combine_samples_spec {α : Type} [LinearOrderedField α] (g : Globals α) (n : Nat)
    (hn : n ≤ N_SAMPLES) :
    ∃ g1 : Globals α, combine_samples (n : Int) g = .ok g1 ∧
      (∀ i, i < n → g1.combined_samples i = g.bernoulli_samples i + g.normal_samples i) ∧
      g1.bernoulli_samples = g.bernoulli_samples ∧ g1.normal_samples = g.normal_samples := by
  rw [combine_samples_eq, if_pos (by exact_mod_cast hn)]
  refine ⟨_, rfl, ?_, rfl, rfl⟩
  intro i hi
  have : (i : Int) < (n : Int) := by exact_mod_cast hi
  simp only [this, if_true]

/-- The sums of `[1, -1]` and `[1/2, 3]`. -/
theorem combine_samples_spec_witness :
    ∃ g1 : Globals ℚ, combine_samples ((2 : Nat) : Int)
        { Globals.zero ℚ with bernoulli_samples := ofList [1, -1]
                              normal_samples := ofList [1 / 2, 3] } = .ok g1 ∧
      (∀ i, i < 2 → g1.combined_samples i =
          (ofList [1, -1] : Nat → ℚ) i + (ofList [1 / 2, 3] : Nat → ℚ) i) ∧
      g1.bernoulli_samples = ofList [1, -1] ∧ g1.normal_samples = ofList [1 / 2, 3] :=
  combine_samples_spec _ 2 (by decide)

/-- C9, refuted as stated: after two Bernoulli samples have been generated and no normal
sample at all, `combine_samples(2)` does not fail; it adds the two Bernoulli samples to the
zeros the other array still holds. -/
theorem combine_samples_unequal_lengths :
    ∃ (s : Rng × Globals ℚ) (g1 : Globals ℚ),
      generate_bernoulli_samples 2
        ({ results := ofList [1, 0], calls := 0 }, Globals.zero ℚ) = .ok s ∧
      combine_samples 2 s.2 = .ok g1 ∧
      g1.combined_samples 0 = 1 ∧ g1.combined_samples 1 = -1 := by
  refine ⟨_, _, bernoulli_loop _ 2 (by decide),
    (combine_samples_eq _ 2).trans (if_pos (by decide)), ?_, ?_⟩
  · have h : Int.tmod 1 2 = 1 := by decide
    simp [ofList, Globals.zero, h]
  · have h : Int.tmod 0 2 = 0 := by decide
    simp [ofList, Globals.zero, h]

/-- C9, as the code has it: `combine_samples` takes one count for both global arrays and
checks nothing; for every `n ≤ N_SAMPLES` it returns normally, with the first `n` sums
stored. -/
theorem combine_samples_never_fails {α : Type} [LinearOrderedField α] (g : Globals α)
    (n : Int) (hn : n ≤ N_SAMPLES) :
    ∃ g1 : Globals α, combine_samples n g = .ok g1 ∧
      ∀ i : Nat, (i : Int) < n →
        g1.combined_samples i = g.bernoulli_samples i + g.normal_samples i := by
  rw [combine_samples_eq, if_pos hn]
  refine ⟨_, rfl, ?_⟩
  intro i hi
  simp only [hi, if_true]

/-- A call of `combine_samples(2)` on the arrays as the program starts with them. -/
theorem combine_samples_never_fails_witness :
    ∃ g1 : Globals ℚ, combine_samples 2 (Globals.zero ℚ) = .ok g1 ∧
      ∀ i : Nat, (i : Int) < 2 →
        g1.combined_samples i =
          (Globals.zero ℚ).bernoulli_samples i + (Globals.zero ℚ).normal_samples i :=
  combine_samples_never_fails (Globals.zero ℚ) 2 (by decide)

/-- C10: for a stream of non-negative `rand()` results and `0 ≤ n ≤ N_SAMPLES`,
`generate_bernoulli_samples(n)` makes exactly `n` calls of `rand()` and sets
`bernoulli_samples[i] = 2*(r_i mod 2) - 1` for `i < n`, where `r_i` is the result of its
`i`-th call; each of these elements is `-1` or `+1`. -/
theorem generate_bernoulli_samples_spec {α : Type} [LinearOrderedField α] (rng : Rng)
    (g : Globals α) (n : Nat) (hn : n ≤ N_SAMPLES) (hr : ∀ i, 0 ≤ rng.results i) :
    ∃ (rng1 : Rng) (g1 : Globals α),
      generate_bernoulli_samples (n : Int) (rng, g) = .ok (rng1, g1) ∧
      rng1.calls = rng.calls + n ∧ rng1.results = rng.results ∧
      ∀ i, i < n →
        g1.bernoulli_samples i = ((2 * (rng.results (rng.calls + i) % 2) - 1 : Int) : α) ∧
        (g1.bernoulli_samples i = -1 ∨ g1.bernoulli_samples i = 1) := by
  unfold generate_bernoulli_samples
  rw [Int.toNat_ofNat, bernoulli_loop (rng, g) n hn]
  refine ⟨_, _, rfl, rfl, rfl, ?_⟩
  intro i hi
  have h0 := hr (rng.calls + i)
  have hmod : Int.tmod (rng.results (rng.calls + i)) 2 = rng.results (rng.calls + i) % 2 :=
    Int.tmod_eq_emod h0 (by norm_num)
  simp only [hi, if_true, hmod]
  refine ⟨trivial, ?_⟩
  rcases Int.emod_two_eq_zero_or_one (rng.results (rng.calls + i)) with h | h
  · left; rw [h]; norm_num
  · right; rw [h]; norm_num

/-- Three Bernoulli samples from the `rand()` results 7, 4, 9. -/
theorem generate_bernoulli_samples_spec_witness :
    ∃ (rng1 : Rng) (g1 : Globals ℚ),
      generate_bernoulli_samples ((3 : Nat) : Int)
        ({ results := ofList [7, 4, 9], calls := 0 }, Globals.zero ℚ) = .ok (rng1, g1) ∧
      rng1.calls = 0 + 3 ∧ rng1.results = ofList [7, 4, 9] ∧
      ∀ i, i < 3 →
        g1.bernoulli_samples i = ((2 * ((ofList [7, 4, 9] : Nat → Int) (0 + i) % 2) - 1 : Int) : ℚ) ∧
        (g1.bernoulli_samples i = -1 ∨ g1.bernoulli_samples i = 1) :=
  generate_bernoulli_samples_spec { results := ofList [7, 4, 9], calls := 0 } (Globals.zero ℚ) 3
    (by decide) (by
      intro i
      simp only [ofList]
      rcases i with _ | _ | _ | i <;> simp)

/-- C11: from the empty cache (`generate = 0`), with a first draw `0 < r1 ≤ RAND_MAX`, two
consecutive calls of `box_muller` take exactly two `rand()` results, both in the first call:
the first call returns `sqrt(-2*ln(u1))*cos(2*PI*u2)` and sets `generate = 1`, the second
returns `sqrt(-2*ln(u1))*sin(2*PI*u2)` of the same pair and sets `generate = 0` again. -/
theorem box_muller_two_calls (RAND_MAX : Int) (rng : Rng) (b : BoxMuller ℝ)
    (hgen : b.generate = 0) (h0 : 0 < rng.results rng.calls)
    (h1 : rng.results rng.calls ≤ RAND_MAX) :
    ∃ (rngA rngB : Rng) (bA bB : BoxMuller ℝ),
      box_muller ⟨Real.sqrt, Real.log, Real.cos, Real.sin⟩ RAND_MAX (rng, b) =
        .ok (Real.sqrt (-2 * Real.log ((rng.results rng.calls : ℝ) / (RAND_MAX : ℝ))) *
               Real.cos (2 * PI * ((rng.results (rng.calls + 1) : ℝ) / (RAND_MAX : ℝ))),
             rngA, bA) ∧
      rngA.calls = rng.calls + 2 ∧ rngA.results = rng.results ∧ bA.generate = 1 ∧
      box_muller ⟨Real.sqrt, Real.log, Real.cos, Real.sin⟩ RAND_MAX (rngA, bA) =
        .ok (Real.sqrt (-2 * Real.log ((rng.results rng.calls : ℝ) / (RAND_MAX : ℝ))) *
               Real.sin (2 * PI * ((rng.results (rng.calls + 1) : ℝ) / (RAND_MAX : ℝ))),
             rngB, bB) ∧
      rngB.calls = rng.calls + 2 ∧ rngB.results = rng.results ∧ bB.generate = 0 := by
  obtain ⟨hR, hpos, hrad⟩ := real_draw_in_domain RAND_MAX _ h0 h1
  refine ⟨_, _, _, _,
    box_muller_fresh ⟨Real.sqrt, Real.log, Real.cos, Real.sin⟩ RAND_MAX rng b hgen hR hpos hrad,
    rfl, rfl, rfl,
    box_muller_cached ⟨Real.sqrt, Real.log, Real.cos, Real.sin⟩ RAND_MAX _ _ (by simp),
    rfl, rfl, rfl⟩

/-- Two calls of `box_muller` on the draws 16384 and 8192 with `RAND_MAX = 32767`. -/
theorem box_muller_two_calls_witness :
    ∃ (rngA rngB : Rng) (bA bB : BoxMuller ℝ),
      box_muller ⟨Real.sqrt, Real.log, Real.cos, Real.sin⟩ 32767
          ({ results := ofList [16384, 8192], calls := 0 }, { z0 := 0, z1 := 0, generate := 0 }) =
        .ok (Real.sqrt (-2 * Real.log
                (((ofList [16384, 8192] : Nat → Int) 0 : ℝ) / ((32767 : Int) : ℝ))) *
               Real.cos (2 * PI *
                (((ofList [16384, 8192] : Nat → Int) (0 + 1) : ℝ) / ((32767 : Int) : ℝ))),
             rngA, bA) ∧
      rngA.calls = 0 + 2 ∧ rngA.results = ofList [16384, 8192] ∧ bA.generate = 1 ∧
      box_muller ⟨Real.sqrt, Real.log, Real.cos, Real.sin⟩ 32767 (rngA, bA) =
        .ok (Real.sqrt (-2 * Real.log
                (((ofList [16384, 8192] : Nat → Int) 0 : ℝ) / ((32767 : Int) : ℝ))) *
               Real.sin (2 * PI *
                (((ofList [16384, 8192] : Nat → Int) (0 + 1) : ℝ) / ((32767 : Int) : ℝ))),
             rngB, bB) ∧
      rngB.calls = 0 + 2 ∧ rngB.results = ofList [16384, 8192] ∧ bB.generate = 0 :=
  box_muller_two_calls 32767 { results := ofList [16384, 8192], calls := 0 }
    { z0 := 0, z1 := 0, generate := 0 } rfl (by decide) (by decide)

/-- C12, the code at a failing input: with the cache empty and a first draw of zero,
`box_muller` does not draw again; it applies `log` to `u1 = 0`. -/
theorem box_muller_first_draw_zero :
    box_muller (⟨Real.sqrt, Real.log, Real.cos, Real.sin⟩ : Libm ℝ) 32767
        ({ results := ofList [0, 12345], calls := 0 }, { z0 := 0, z1 := 0, generate := 0 }) =
      .error .logOfNonPositive :=
  box_muller_zero_draw _ 32767 _ _ rfl (by decide) rfl

/-- C13: for `0 ≤ n ≤ N_SAMPLES`, started with the cache empty and with the first draw of
every pair in `0 < r ≤ RAND_MAX`, `generate_normal_samples(n)` takes `2*ceil(n/2)` results of
`rand()`, stores the cosine value of the `j`-th pair at index `2j` and its sine value at index
`2j+1` (when below `n`), and leaves `generate = n mod 2`. -/
theorem generate_normal_samples_pairs (RAND_MAX : Int) (rng : Rng) (b : BoxMuller ℝ)
    (g : Globals ℝ) (n : Nat) (hn : n ≤ N_SAMPLES) (hgen : b.generate = 0)
    (hdraw : ∀ j, 2 * j < n →
      0 < rng.results (rng.calls + 2 * j) ∧ rng.results (rng.calls + 2 * j) ≤ RAND_MAX) :
    ∃ (rng1 : Rng) (b1 : BoxMuller ℝ) (g1 : Globals ℝ),
      generate_normal_samples ⟨Real.sqrt, Real.log, Real.cos, Real.sin⟩ RAND_MAX (n : Int)
        (rng, b, g) = .ok (rng1, b1, g1) ∧
      rng1.calls = rng.calls + 2 * ((n + 1) / 2) ∧ rng1.results = rng.results ∧
      b1.generate = ((n % 2 : Nat) : Int) ∧
      (∀ j, 2 * j < n → g1.normal_samples (2 * j) =
        Real.sqrt (-2 * Real.log ((rng.results (rng.calls + 2 * j) : ℝ) / (RAND_MAX : ℝ))) *
          Real.cos (2 * PI * ((rng.results (rng.calls + 2 * j + 1) : ℝ) / (RAND_MAX : ℝ)))) ∧
      (∀ j, 2 * j + 1 < n → g1.normal_samples (2 * j + 1) =
        Real.sqrt (-2 * Real.log ((rng.results (rng.calls + 2 * j) : ℝ) / (RAND_MAX : ℝ))) *
          Real.sin (2 * PI * ((rng.results (rng.calls + 2 * j + 1) : ℝ) / (RAND_MAX : ℝ)))) := by
  obtain ⟨bc, gc, hrun, hg, -, hs, -, -⟩ :=
    normal_loop ⟨Real.sqrt, Real.log, Real.cos, Real.sin⟩ RAND_MAX rng b g hgen n hn
      (fun j hj => real_draw_in_domain RAND_MAX _ (hdraw j hj).1 (hdraw j hj).2)
  refine ⟨_, bc, gc, hrun, rfl, rfl, hg, ?_, ?_⟩
  · intro j hj
    have h2 : 2 * j / 2 = j := by omega
    rw [hs (2 * j) hj, if_pos (by omega), h2]
    rfl
  · intro j hj
    have h2 : (2 * j + 1) / 2 = j := by omega
    rw [hs (2 * j + 1) hj, if_neg (by omega), h2]
    rfl

/-- Three normal samples from the draws 16384, 8192, 5, 7 with `RAND_MAX = 32767`. -/
theorem generate_normal_samples_pairs_witness :
    ∃ (rng1 : Rng) (b1 : BoxMuller ℝ) (g1 : Globals ℝ),
      generate_normal_samples ⟨Real.sqrt, Real.log, Real.cos, Real.sin⟩ 32767 ((3 : Nat) : Int)
        ({ results := ofList [16384, 8192, 5, 7], calls := 0 },
          { z0 := 0, z1 := 0, generate := 0 }, Globals.zero ℝ) = .ok (rng1, b1, g1) ∧
      rng1.calls = 0 + 2 * ((3 + 1) / 2) ∧ rng1.results = ofList [16384, 8192, 5, 7] ∧
      b1.generate = ((3 % 2 : Nat) : Int) ∧
      (∀ j, 2 * j < 3 → g1.normal_samples (2 * j) =
        Real.sqrt (-2 * Real.log
            (((ofList [16384, 8192, 5, 7] : Nat → Int) (0 + 2 * j) : ℝ) / ((32767 : Int) : ℝ))) *
          Real.cos (2 * PI *
            (((ofList [16384, 8192, 5, 7] : Nat → Int) (0 + 2 * j + 1) : ℝ) /
              ((32767 : Int) : ℝ)))) ∧
      (∀ j, 2 * j + 1 < 3 → g1.normal_samples (2 * j + 1) =
        Real.sqrt (-2 * Real.log
            (((ofList [16384, 8192, 5, 7] : Nat → Int) (0 + 2 * j) : ℝ) / ((32767 : Int) : ℝ))) *
          Real.sin (2 * PI *
            (((ofList [16384, 8192, 5, 7] : Nat → Int) (0 + 2 * j + 1) : ℝ) /
              ((32767 : Int) : ℝ)))) :=
  generate_normal_samples_pairs 32767 { results := ofList [16384, 8192, 5, 7], calls := 0 }
    { z0 := 0, z1 := 0, generate := 0 } (Globals.zero ℝ) 3 (by decide) rfl (by
      intro j hj
      have hj2 : j < 2 := by omega
      interval_cases j <;> simp [ofList])

/-- C14, the code at a failing input: for the samples `0` and `2^-1074` with three bins the
width is `2^-1074 / 3`, which rounds to zero although `max > min`; the quotient that is
converted to the bin index is then a division by zero for both samples, so no index inside
the array results. -/
theorem bin_index_of_double_tiny_range :
    (0 : ℚ) < 1 / 2 ^ 1074 ∧
    dsub (1 / 2 ^ 1074) 0 = .ok (1 / 2 ^ 1074) ∧
    ddiv (1 / 2 ^ 1074) ((3 : Int) : ℚ) = .ok 0 ∧
    bin_index_of_double 0 0 0 3 = .error .divByZero ∧
    bin_index_of_double (1 / 2 ^ 1074) 0 0 3 = .error .divByZero :=
  ⟨by decide!, observe_id _ _ (by decide!), observe_id _ _ (by decide!),
    observe_error id _ _ (by decide!), observe_error id _ _ (by decide!)⟩

/-- The indices in exact arithmetic, where the width is positive whenever `max > min`: for
`n > 0` samples with `max > min` and `0 < k ≤ BINS`, every sample's quotient
`(x - min) / width` converts to a non-negative `int` without any lower clamp, the index
that `create_histogram` increments lies in `[0, k-1]`, inside the array, and so the whole
call returns without an access out of range. -/
theorem create_histogram_index_in_range {α : Type} [LinearOrderedField α] [FloorRing α]
    (data : Nat → α) (n k : Nat) (g : Globals α) (mn mx : α)
    (hn : 0 < n) (hk : 0 < k) (hkB : k ≤ BINS)
    (hmn : IsLeast (Set.image data (Set.Iio n)) mn)
    (hmx : IsGreatest (Set.image data (Set.Iio n)) mx) (hlt : mn < mx) :
    (∀ i, i < n → ∃ t b : Int,
      double_to_int ((data i - mn) / ((mx - mn) / (k : α))) = .ok t ∧ 0 ≤ t ∧
      bin_index_of (data i) mn ((mx - mn) / (k : α)) (k : Int) = .ok b ∧
      0 ≤ b ∧ b ≤ (k : Int) - 1 ∧ b < (BINS : Int)) ∧
    ∃ g1 : Globals α, create_histogram data (n : Int) (k : Int) g = .ok g1 := by
  have hk0 : (0 : α) < (k : α) := by exact_mod_cast hk
  have hw : 0 < (mx - mn) / (k : α) := div_pos (sub_pos.mpr hlt) hk0
  have hB : BINS = 50 := rfl
  refine ⟨?_, _, create_histogram_eq data n k g mn mx hn hk hkB hmn hmx hlt⟩
  intro i hi
  have hmem : data i ∈ Set.image data (Set.Iio n) := ⟨i, hi, rfl⟩
  have h1 : mn ≤ data i := hmn.2 hmem
  have h2 : data i ≤ mx := hmx.2 hmem
  have hq : (data i - mn) / ((mx - mn) / (k : α)) ≤ (k : α) := by
    rw [div_le_iff₀ hw, mul_div_cancel₀ _ hk0.ne']
    linarith
  have hq0 : 0 ≤ (data i - mn) / ((mx - mn) / (k : α)) :=
    div_nonneg (sub_nonneg.mpr h1) hw.le
  have hf0 : 0 ≤ ⌊(data i - mn) / ((mx - mn) / (k : α))⌋ := Int.floor_nonneg.mpr hq0
  have hfk : ⌊(data i - mn) / ((mx - mn) / (k : α))⌋ ≤ (k : Int) := by
    have h3 : ((⌊(data i - mn) / ((mx - mn) / (k : α))⌋ : Int) : α) ≤ ((k : Int) : α) := by
      rw [Int.cast_natCast]
      exact (Int.floor_le _).trans hq
    exact_mod_cast h3
  have hb : binOf (data i) mn ((mx - mn) / (k : α)) k ≤ k - 1 := min_le_right _ _
  refine ⟨⌊(data i - mn) / ((mx - mn) / (k : α))⌋,
    ((binOf (data i) mn ((mx - mn) / (k : α)) k : Nat) : Int), ?_, hf0,
    bin_index_of_eq _ _ _ _ hw h1 hq hkB hk, by omega, by omega, by omega⟩
  simp only [double_to_int, hq0, if_true]
  rw [if_pos ⟨by omega, by omega⟩]

/-- The indices of `[0,0,0,1,1,2]` in three bins are in range. -/
theorem create_histogram_index_in_range_witness :
    (∀ i, i < 6 → ∃ t b : Int,
      double_to_int (((ofList [0, 0, 0, 1, 1, 2] : Nat → ℚ) i - 0) / ((2 - 0) / ((3 : Nat) : ℚ)))
        = .ok t ∧ 0 ≤ t ∧
      bin_index_of ((ofList [0, 0, 0, 1, 1, 2] : Nat → ℚ) i) 0 ((2 - 0) / ((3 : Nat) : ℚ))
        ((3 : Nat) : Int) = .ok b ∧
      0 ≤ b ∧ b ≤ ((3 : Nat) : Int) - 1 ∧ b < (BINS : Int)) ∧
    ∃ g1 : Globals ℚ,
      create_histogram (ofList [0, 0, 0, 1, 1, 2]) ((6 : Nat) : Int) ((3 : Nat) : Int)
        (Globals.zero ℚ) = .ok g1 :=
  create_histogram_index_in_range (ofList [0, 0, 0, 1, 1, 2]) 6 3 (Globals.zero ℚ) 0 2
    (by decide) (by decide) (by decide) example_min example_max (by norm_num)

/-- C15, refuted as stated: the draw `r = RAND_MAX` gives the uniform value `1`, which is
not below 1 (here with `RAND_MAX = 32767`). -/
theorem unit_draw_reaches_one :
    ¬ ∀ r : Int, 0 ≤ r → r ≤ 32767 →
      ∃ u : ℝ, unit_draw 32767 r = .ok u ∧ 0 ≤ u ∧ u < 1 := by
  intro h
  obtain ⟨u, hu, -, hlt⟩ := h 32767 (by decide) (by decide)
  have h1 : (unit_draw 32767 32767 : Except Fault ℝ) = .ok 1 := by
    simp [unit_draw, fdiv]
  rw [h1] at hu
  cases hu
  exact lt_irrefl _ hlt

/-- C15, as the code has it: for a `rand()` result `0 ≤ r ≤ RAND_MAX` the value
`r / RAND_MAX` that `box_muller` computes lies in the closed interval `[0, 1]`; it is below 1
exactly when `r < RAND_MAX`, and it is 1 for `r = RAND_MAX`. -/
theorem unit_draw_range {α : Type} [LinearOrderedField α] (RAND_MAX r : Int)
    (hR : 0 < RAND_MAX) (h0 : 0 ≤ r) (h1 : r ≤ RAND_MAX) :
    ∃ u : α, unit_draw RAND_MAX r = .ok u ∧ u = (r : α) / (RAND_MAX : α) ∧
      0 ≤ u ∧ u ≤ 1 ∧ (u < 1 ↔ r < RAND_MAX) ∧ (u = 1 ↔ r = RAND_MAX) := by
  have hR0 : (0 : α) < (RAND_MAX : α) := by exact_mod_cast hR
  have hr0 : (0 : α) ≤ (r : α) := by exact_mod_cast h0
  refine ⟨(r : α) / (RAND_MAX : α), ?_, rfl, div_nonneg hr0 hR0.le, ?_, ?_, ?_⟩
  · simp [unit_draw, fdiv, hR0.ne']
  · rw [div_le_one hR0]; exact_mod_cast h1
  · rw [div_lt_one hR0]; exact Int.cast_lt
  · rw [div_eq_one_iff_eq hR0.ne']; exact Int.cast_inj

/-- The uniform values of the draws 0 and 32767 with `RAND_MAX = 32767`. -/
theorem unit_draw_range_witness :
    ∃ u : ℚ, unit_draw 32767 32767 = .ok u ∧ u = ((32767 : Int) : ℚ) / ((32767 : Int) : ℚ) ∧
      0 ≤ u ∧ u ≤ 1 ∧ (u < 1 ↔ (32767 : Int) < 32767) ∧ (u = 1 ↔ (32767 : Int) = 32767) :=
  unit_draw_range 32767 32767 (by decide) (by decide) (by decide)

/-- C16: for `n > 0` real samples `calculate_statistics` returns a variance that is not
negative, so the square root is taken inside its domain, `std * std = var` with `std ≥ 0`,
and the variance is zero exactly when all the samples are equal. -/
theorem calculate_statistics_variance (data : Nat → ℝ) (n : Nat) (hn : 0 < n) :
    ∃ st : Statistics ℝ, calculate_statistics Real.sqrt data (n : Int) = .ok st ∧
      0 ≤ st.var ∧ fsqrt Real.sqrt st.var = .ok st.std ∧
      st.std * st.std = st.var ∧ 0 ≤ st.std ∧
      (st.var = 0 ↔ ∀ i j, i < n → j < n → data i = data j) := by
  have hn1 : (0 : Int) < (n : Int) := by exact_mod_cast hn
  have hv := varOf_nonneg data (n : Int) hn1
  refine ⟨_, calculate_statistics_eq Real.sqrt data (n : Int) hn1, hv, ?_,
    Real.mul_self_sqrt hv, Real.sqrt_nonneg _, ?_⟩
  · simp only [fsqrt, if_neg (not_lt.mpr hv)]
  · simp only
    rw [varOf_eq_zero_iff data n hn]
    constructor
    · intro h i j hi hj
      rw [h i hi, h j hj]
    · intro h i hi
      exact h i 0 hi hn

/-- The statistics of the four samples `[1, 3, 3, 5]`. -/
theorem calculate_statistics_variance_witness :
    ∃ st : Statistics ℝ,
      calculate_statistics Real.sqrt (ofList [1, 3, 3, 5]) ((4 : Nat) : Int) = .ok st ∧
      0 ≤ st.var ∧ fsqrt Real.sqrt st.var = .ok st.std ∧
      st.std * st.std = st.var ∧ 0 ≤ st.std ∧
      (st.var = 0 ↔ ∀ i j, i < 4 → j < 4 →
        (ofList [1, 3, 3, 5] : Nat → ℝ) i = (ofList [1, 3, 3, 5] : Nat → ℝ) j) :=
  calculate_statistics_variance (ofList [1, 3, 3, 5]) 4 (by decide)

/-- C17, refuted as stated: for the `rand()` results 7, 4, 9 the Bernoulli samples are
`1, -1, 1`; in `double`s `calculate_statistics` returns the mean nearest to `1/3` and a
variance that is neither `1 - mean²` nor that expression evaluated in `double`s.  The mean
and the variance do not depend on the function given for `sqrt`. -/
theorem bernoulli_statistics_double :
    ∃ (rng1 : Rng) (g1 : Globals ℚ) (st : Statistics ℚ),
      generate_bernoulli_samples 3
        ({ results := ofList [7, 4, 9], calls := 0 }, Globals.zero ℚ) = .ok (rng1, g1) ∧
      calculate_statistics_double (fun x => x) g1.bernoulli_samples 3 = .ok st ∧
      st.mean = 6004799503160661 / 18014398509481984 ∧
      st.var = 8006399337547549 / 9007199254740992 ∧
      st.var ≠ 1 - st.mean ^ 2 ∧
      (dmul st.mean st.mean).bind (fun sq => dsub 1 sq) =
        .ok (2001599834386887 / 2251799813685248) ∧
      st.var ≠ 2001599834386887 / 2251799813685248 := by
  obtain ⟨s, h1, h2⟩ := observe_ok
    (fun s : Rng × Globals ℚ =>
      observe (fun st : Statistics ℚ => (st.mean, st.var))
        (calculate_statistics_double (fun x => x) s.2.bernoulli_samples 3))
    (generate_bernoulli_samples 3
      ({ results := ofList [7, 4, 9], calls := 0 }, Globals.zero ℚ))
    (.inr (6004799503160661 / 18014398509481984, 8006399337547549 / 9007199254740992))
    (by decide!)
  obtain ⟨st, h3, h4⟩ := observe_ok _ _ _ h2
  have hm : st.mean = 6004799503160661 / 18014398509481984 := congrArg Prod.fst h4
  have hv : st.var = 8006399337547549 / 9007199254740992 := congrArg Prod.snd h4
  refine ⟨s.1, s.2, st, h1, h3, hm, hv, ?_, ?_, ?_⟩
  · rw [hm, hv]; norm_num
  · rw [hm]; exact observe_id _ _ (by decide!)
  · rw [hv]; norm_num

/-- C17, in exact arithmetic: for `0 < n ≤ N_SAMPLES` and non-negative `rand()` results, the
statistics of the samples written by `generate_bernoulli_samples(n)` satisfy
`var = 1 - mean²`; the variance is at most 1, and it is 1 exactly when the mean is 0. -/
theorem bernoulli_statistics {α : Type} [LinearOrderedField α] (sqrt : α → α) (rng : Rng)
    (g : Globals α) (n : Nat) (hn : 0 < n) (hN : n ≤ N_SAMPLES)
    (hr : ∀ i, 0 ≤ rng.results i) :
    ∃ (rng1 : Rng) (g1 : Globals α) (st : Statistics α),
      generate_bernoulli_samples (n : Int) (rng, g) = .ok (rng1, g1) ∧
      calculate_statistics sqrt g1.bernoulli_samples (n : Int) = .ok st ∧
      st.var = 1 - st.mean ^ 2 ∧ st.var ≤ 1 ∧ (st.var = 1 ↔ st.mean = 0) := by
  have hn1 : (0 : Int) < (n : Int) := by exact_mod_cast hn
  have hloop : generate_bernoulli_samples (n : Int) (rng, g) =
      .ok ({ rng with calls := rng.calls + n },
           { g with bernoulli_samples := fun i =>
              if i < n then ((2 * Int.tmod (rng.results (rng.calls + i)) 2 - 1 : Int) : α)
              else g.bernoulli_samples i }) := by
    unfold generate_bernoulli_samples
    rw [Int.toNat_ofNat]
    exact bernoulli_loop (rng, g) n hN
  refine ⟨_, _, _, hloop, calculate_statistics_eq sqrt _ (n : Int) hn1, ?_⟩
  simp only
  have hsq : ∀ i, i < n →
      (fun i => if i < n then ((2 * Int.tmod (rng.results (rng.calls + i)) 2 - 1 : Int) : α)
        else g.bernoulli_samples i) i ^ 2 = 1 := by
    intro i hi
    simp only [hi, if_true]
    exact bernoulli_sq _ (hr _)
  have hvar := varOf_of_sq_eq_one _ n hn hsq
  rw [hvar]
  refine ⟨rfl, ?_, ?_⟩
  · nlinarith [sq_nonneg (meanOf (fun i => if i < n then
      ((2 * Int.tmod (rng.results (rng.calls + i)) 2 - 1 : Int) : α)
      else g.bernoulli_samples i) (n : Int))]
  · constructor
    · intro h
      have : meanOf (fun i => if i < n then
          ((2 * Int.tmod (rng.results (rng.calls + i)) 2 - 1 : Int) : α)
          else g.bernoulli_samples i) (n : Int) ^ 2 = 0 := by linarith
      exact pow_eq_zero_iff (by norm_num) |>.mp this
    · intro h
      rw [h]
      norm_num

/-- The statistics of three Bernoulli samples from the `rand()` results 7, 4, 9. -/
theorem bernoulli_statistics_witness :
    ∃ (rng1 : Rng) (g1 : Globals ℚ) (st : Statistics ℚ),
      generate_bernoulli_samples ((3 : Nat) : Int)
        ({ results := ofList [7, 4, 9], calls := 0 }, Globals.zero ℚ) = .ok (rng1, g1) ∧
      calculate_statistics (fun x => x) g1.bernoulli_samples ((3 : Nat) : Int) = .ok st ∧
      st.var = 1 - st.mean ^ 2 ∧ st.var ≤ 1 ∧ (st.var = 1 ↔ st.mean = 0) :=
  bernoulli_statistics (fun x => x) { results := ofList [7, 4, 9], calls := 0 }
    (Globals.zero ℚ) 3 (by decide) (by decide) (by
      intro i
      simp only [ofList]
      rcases i with _ | _ | _ | i <;> simp)

/-- C18: for `0 < n ≤ N_SAMPLES` and any contents of the two input arrays, the mean that
`calculate_statistics` returns for `combined_samples` after `combine_samples(n)` is the sum
of the means it returns for `bernoulli_samples` and `normal_samples` over the same `n`. -/
theorem combined_mean_is_sum_of_means {α : Type} [LinearOrderedField α] (sqrt : α → α)
    (g : Globals α) (n : Nat) (hn : 0 < n) (hN : n ≤ N_SAMPLES) :
    ∃ (g1 : Globals α) (sc sb sn : Statistics α),
      combine_samples (n : Int) g = .ok g1 ∧
      calculate_statistics sqrt g1.combined_samples (n : Int) = .ok sc ∧
      calculate_statistics sqrt g.bernoulli_samples (n : Int) = .ok sb ∧
      calculate_statistics sqrt g.normal_samples (n : Int) = .ok sn ∧
      sc.mean = sb.mean + sn.mean := by
  have hn1 : (0 : Int) < (n : Int) := by exact_mod_cast hn
  have hN1 : (n : Int) ≤ (N_SAMPLES : Int) := by exact_mod_cast hN
  refine ⟨_, _, _, _, (combine_samples_eq g (n : Int)).trans (if_pos hN1),
    calculate_statistics_eq sqrt _ (n : Int) hn1, calculate_statistics_eq sqrt _ (n : Int) hn1,
    calculate_statistics_eq sqrt _ (n : Int) hn1, ?_⟩
  simp only
  apply meanOf_add
  intro i hi
  have : (i : Int) < (n : Int) := by exact_mod_cast hi
  simp only [this, if_true]

/-- The means of `[1, -1]`, of `[1/2, 3]` and of their elementwise sum. -/
theorem combined_mean_is_sum_of_means_witness :
    ∃ (g1 : Globals ℚ) (sc sb sn : Statistics ℚ),
      combine_samples ((2 : Nat) : Int)
        { Globals.zero ℚ with bernoulli_samples := ofList [1, -1]
                              normal_samples := ofList [1 / 2, 3] } = .ok g1 ∧
      calculate_statistics (fun x => x) g1.combined_samples ((2 : Nat) : Int) = .ok sc ∧
      calculate_statistics (fun x => x) (ofList [1, -1]) ((2 : Nat) : Int) = .ok sb ∧
      calculate_statistics (fun x => x) (ofList [1 / 2, 3]) ((2 : Nat) : Int) = .ok sn ∧
      sc.mean = sb.mean + sn.mean :=
  combined_mean_is_sum_of_means (fun x => x) _ 2 (by decide) (by decide)

/-- C19: for `n > 0` samples and `0 < k ≤ BINS`, what `create_histogram` does is the same
from any two previous contents `g` and `h` of the global arrays.  When the samples are not
all equal it returns from both with the same first `k` counts and centres, and calling it
again on its own result gives these counts and centres once more; when the samples are all
equal it ends in the division by the zero width from both. -/
theorem create_histogram_ignores_old_contents {α : Type} [LinearOrderedField α] [FloorRing α]
    (data : Nat → α) (n k : Nat) (g h : Globals α)
    (hn : 0 < n) (hk : 0 < k) (hkB : k ≤ BINS) :
    ((∃ i, i < n ∧ data i ≠ data 0) →
      ∃ g1 h1 g2 : Globals α,
        create_histogram data (n : Int) (k : Int) g = .ok g1 ∧
        create_histogram data (n : Int) (k : Int) h = .ok h1 ∧
        create_histogram data (n : Int) (k : Int) g1 = .ok g2 ∧
        ∀ i, i < k →
          g1.histogram i = h1.histogram i ∧ g1.bin_centers i = h1.bin_centers i ∧
          g2.histogram i = g1.histogram i ∧ g2.bin_centers i = g1.bin_centers i) ∧
    ((∀ i, i < n → data i = data 0) →
      create_histogram data (n : Int) (k : Int) g = .error .divByZero ∧
      create_histogram data (n : Int) (k : Int) h = .error .divByZero) := by
  obtain ⟨hmn, hmx⟩ := find_range_spec data n hn
  constructor
  · rintro ⟨i, hi, hne⟩
    have hle := min_le_max data n hn _ _ hmn hmx
    have hlt : (find_range data (n : Int)).1 < (find_range data (n : Int)).2 := by
      rcases hle.lt_or_eq with hlt | heq
      · exact hlt
      · exfalso
        have hall : ∀ j, j < n → data j = (find_range data (n : Int)).1 := fun j hj =>
          le_antisymm (heq ▸ hmx.2 ⟨j, hj, rfl⟩) (hmn.2 ⟨j, hj, rfl⟩)
        exact hne ((hall i hi).trans (hall 0 hn).symm)
    refine ⟨_, _, _, create_histogram_eq data n k g _ _ hn hk hkB hmn hmx hlt,
      create_histogram_eq data n k h _ _ hn hk hkB hmn hmx hlt,
      create_histogram_eq data n k _ _ _ hn hk hkB hmn hmx hlt, ?_⟩
    intro j hj
    simp only [hj, if_true, and_self]
  · intro hall
    exact ⟨create_histogram_degenerate data n k g (data 0) hn hk hkB hall,
      create_histogram_degenerate data n k h (data 0) hn hk hkB hall⟩

/-- The histogram of `[0,0,0,1,1,2]` built over zeroed arrays and over arrays that hold
other numbers. -/
theorem create_histogram_ignores_old_contents_witness :
    ((∃ i, i < 6 ∧ (ofList [0, 0, 0, 1, 1, 2] : Nat → ℚ) i ≠
        (ofList [0, 0, 0, 1, 1, 2] : Nat → ℚ) 0) →
      ∃ g1 h1 g2 : Globals ℚ,
        create_histogram (ofList [0, 0, 0, 1, 1, 2]) ((6 : Nat) : Int) ((3 : Nat) : Int)
          (Globals.zero ℚ) = .ok g1 ∧
        create_histogram (ofList [0, 0, 0, 1, 1, 2]) ((6 : Nat) : Int) ((3 : Nat) : Int)
          { Globals.zero ℚ with histogram := fun _ => 7, bin_centers := fun _ => 9 } = .ok h1 ∧
        create_histogram (ofList [0, 0, 0, 1, 1, 2]) ((6 : Nat) : Int) ((3 : Nat) : Int) g1
          = .ok g2 ∧
        ∀ i, i < 3 →
          g1.histogram i = h1.histogram i ∧ g1.bin_centers i = h1.bin_centers i ∧
          g2.histogram i = g1.histogram i ∧ g2.bin_centers i = g1.bin_centers i) ∧
    ((∀ i, i < 6 → (ofList [0, 0, 0, 1, 1, 2] : Nat → ℚ) i =
        (ofList [0, 0, 0, 1, 1, 2] : Nat → ℚ) 0) →
      create_histogram (ofList [0, 0, 0, 1, 1, 2]) ((6 : Nat) : Int) ((3 : Nat) : Int)
        (Globals.zero ℚ) = .error .divByZero ∧
      create_histogram (ofList [0, 0, 0, 1, 1, 2]) ((6 : Nat) : Int) ((3 : Nat) : Int)
        { Globals.zero ℚ with histogram := fun _ => 7, bin_centers := fun _ => 9 }
          = .error .divByZero) :=
  create_histogram_ignores_old_contents (ofList [0, 0, 0, 1, 1, 2]) 6 3 (Globals.zero ℚ)
    { Globals.zero ℚ with histogram := fun _ => 7, bin_centers := fun _ => 9 }
    (by decide) (by decide) (by decide)

end RandomVariableAnalysis
